import Mathlib

/-!
# SnakeCPP: a shallow embedding of `src/main.cpp`

The program keeps its whole state in globals (`gen`, `running`, `isMainMenu`,
`currentState`, `food`, `snake`).  The embedding makes that state explicit:

* `int` fields are unbounded `Int`s.  Signed overflow is undefined in C++, so the
  theorems below speak about the runs in which no arithmetic overflows; on the
  800x600 screen all coordinates stay far away from the 32 bit limits.
* `std::vector` is a `List`; an access outside the vector (undefined behaviour in
  C++) makes the embedded function return `none`.
* The Mersenne twister `gen` is a stream of raw draws, and
  `std::uniform_int_distribution(a, b)` maps one raw draw into `[a, b]`.
* Rendering and `SDL_Delay` have no effect on the state and are left out.
-/

namespace SnakeCPP

/-! ## Constants and plain data -/

/-- Screen width, `constexpr short SCREEN_WIDTH{800}`. -/
def SCREEN_WIDTH : Int := 800

/-- Screen height, `constexpr short SCREEN_HEIGHT{600}`. -/
def SCREEN_HEIGHT : Int := 600

/-- Key code of the SDL2 header for the key `w` (its ASCII code). -/
def SDLK_w : Int := 119

/-- Key code of the SDL2 header for the key `s`. -/
def SDLK_s : Int := 115

/-- Key code of the SDL2 header for the key `a`. -/
def SDLK_a : Int := 97

/-- Key code of the SDL2 header for the key `d`. -/
def SDLK_d : Int := 100

/-- Key code of the SDL2 header for the key `q`. -/
def SDLK_q : Int := 113

/-- Key code of the SDL2 header for the space bar. -/
def SDLK_SPACE : Int := 32

/-- The three screens, `enum class ScreenState`. -/
inductive ScreenState
  | MENU
  | PLAY
  | GAME_OVER
  deriving DecidableEq, Repr

/-- A pixel position, `struct Position`. -/
structure Position where
  x : Int
  y : Int
  deriving DecidableEq, Repr

/-- A width and a height, `struct Size`. -/
structure Size where
  width : Int
  height : Int
  deriving DecidableEq, Repr

/-- One square of the snake, `struct Segment`. -/
structure Segment where
  position : Position
  size : Size
  deriving DecidableEq, Repr

/-! ## The pseudorandom source -/

/-- State of the global generator `gen`: the raw draws that are still to come. -/
abbrev Gen := Nat → Nat

/-- One call `dist(gen)` of a `std::uniform_int_distribution dist(a, b)`: the next raw
draw is mapped into `[a, b]` and consumed.  Every value of `[a, b]` is the image of
some raw draw, so the source is arbitrary within the requested range. -/
def uniformInt (a b : Int) (gen : Gen) : Int × Gen :=
  (a + (gen 0 : Int) % (b - a + 1), fun n => gen (n + 1))

/-! ## Food -/

/-- The food, `class Food`: a size (member initialiser `{35, 35}`) and a position. -/
structure Food where
  size : Size := ⟨35, 35⟩
  position : Position := ⟨0, 0⟩
  deriving DecidableEq, Repr

/-- The method `Food::reset`: both coordinates are drawn afresh, `x` first. -/
def Food.reset (food : Food) (gen : Gen) : Food × Gen :=
  let dx := uniformInt 0 (SCREEN_WIDTH - food.size.width) gen
  let dy := uniformInt 0 (SCREEN_HEIGHT - food.size.height) dx.2
  ({ food with position := ⟨dx.1, dy.1⟩ }, dy.2)

/-- The constructor `Food::Food`: default members, then `reset()`. -/
def Food.init (gen : Gen) : Food × Gen :=
  Food.reset {} gen

/-! ## Snake -/

/-- The snake, `class Snake`, with its member initialisers. -/
structure Snake where
  segments : List Segment
  direction : Position := ⟨1, 0⟩
  speed : Int := 4
  points : Int := 0
  isAlive : Bool := true
  deriving DecidableEq, Repr

/-- The constructor `Snake::Snake`: one segment in the middle of the screen. -/
def Snake.init : Snake :=
  { segments := [⟨⟨SCREEN_WIDTH / 2, SCREEN_HEIGHT / 2⟩, ⟨35, 35⟩⟩] }

/-- The method `Snake::updateSnakeInput`, applied to the key code `event->keysym.sym`. -/
def Snake.updateSnakeInput (s : Snake) (sym : Int) : Snake :=
  if !s.isAlive then s
  else
    let movingLeft := s.direction.x == -1 && s.direction.y == 0
    let movingRight := s.direction.x == 1 && s.direction.y == 0
    let movingUp := s.direction.x == 0 && s.direction.y == -1
    let movingDown := s.direction.x == 0 && s.direction.y == 1
    if sym == SDLK_w && !movingDown then { s with direction := ⟨0, -1⟩ }
    else if sym == SDLK_s && !movingUp then { s with direction := ⟨0, 1⟩ }
    else if sym == SDLK_a && !movingRight then { s with direction := ⟨-1, 0⟩ }
    else if sym == SDLK_d && !movingLeft then { s with direction := ⟨1, 0⟩ }
    else s

/-- The assignment `segments[i].position = p`; `none` when `i` is out of range. -/
def setPosition (segments : List Segment) (i : Nat) (p : Position) : Option (List Segment) :=
  match segments[i]? with
  | none => none
  | some sg => some (segments.set i { sg with position := p })

/-- The loop `for (auto i = segments.size() - 1; i > 0; --i) segments[i].position =
oldPositions[i - 1];` of `updateSnake`.  The counter of the recursion is the C++ `i`. -/
def shiftLoop (oldPositions : List Position) : Nat → List Segment → Option (List Segment)
  | 0, segments => some segments
  | i + 1, segments =>
    match oldPositions[i]? with
    | none => none
    | some p =>
      match setPosition segments (i + 1) p with
      | none => none
      | some segments1 => shiftLoop oldPositions i segments1

/-- The loop `for (int i = 1; i < segments.size(); ++i)` of `updateSnake`, comparing the
new head with `oldPositions[i]`.  The first counter is the number of iterations left
(`segments.size() - i`), the second one is `i`, the flag is `isAlive`. -/
def collisionLoop (head : Position) (oldPositions : List Position) :
    Nat → Nat → Bool → Option Bool
  | 0, _, isAlive => some isAlive
  | left + 1, i, isAlive =>
    match oldPositions[i]? with
    | none => none
    | some p =>
      collisionLoop head oldPositions left (i + 1)
        (if head.x == p.x && head.y == p.y then false else isAlive)

/-- The method `Snake::updateSnake`.  With no segment at all `segments.size() - 1` wraps
around and the first access is out of range: the result is `none`.  The head step
`position += direction * speed` is the exact integer result; it is the value the 32-bit
`int` of the code holds whenever the product and the sum are 32-bit values (`inInt32`,
`wrap32_of_inInt32`), which is the case in every state reached from the constructed
snake. -/
def Snake.updateSnake (s : Snake) : Option Snake :=
  if !s.isAlive then some s
  else
    let oldPositions := s.segments.map (fun sg => sg.position)
    if s.segments.length = 0 then none
    else
      match shiftLoop oldPositions (s.segments.length - 1) s.segments with
      | none => none
      | some [] => none
      | some (seg0 :: rest) =>
        let head : Segment :=
          { seg0 with
            position := ⟨seg0.position.x + s.direction.x * s.speed,
                         seg0.position.y + s.direction.y * s.speed⟩ }
        match collisionLoop head.position oldPositions (s.segments.length - 1) 1 true with
        | none => none
        | some alive0 =>
          let alive1 := if head.position.x < 0 then false else alive0
          let alive2 := if head.position.x > SCREEN_WIDTH - head.size.width then false else alive1
          let alive3 := if head.position.y < 0 then false else alive2
          let alive4 := if head.position.y > SCREEN_HEIGHT - head.size.height then false else alive3
          some { s with segments := head :: rest, isAlive := alive4 }

/-- The method `Snake::isColliding`: inclusive bounding box test of `segments[0]` against
the food; `none` when there is no `segments[0]`.  The sums `position + size` are the exact
integer results; they are the values the 32-bit `int` of the code holds whenever they are
32-bit values (`inInt32`, `wrap32_of_inInt32`), which is the case for every position on
the screen. -/
def Snake.isColliding (s : Snake) (food : Food) : Option Bool :=
  match s.segments[0]? with
  | none => none
  | some seg0 =>
    some (decide (seg0.position.x + seg0.size.width ≥ food.position.x) &&
          decide (seg0.position.x ≤ food.position.x + food.size.width) &&
          decide (seg0.position.y + seg0.size.height ≥ food.position.y) &&
          decide (seg0.position.y ≤ food.position.y + food.size.height))

/-- The method `Snake::eatFood`, threading the food and the generator it resets. -/
def Snake.eatFood (s : Snake) (food : Food) (gen : Gen) : Option (Snake × Food × Gen) :=
  match s.isColliding food with
  | none => none
  | some false => some (s, food, gen)
  | some true =>
    match s.segments.getLast? with
    | none => none
    | some tail =>
      let r := food.reset gen
      some ({ s with segments := s.segments ++ [⟨tail.position, ⟨35, 35⟩⟩],
                     points := s.points + 1 }, r.1, r.2)

/-- The method `Snake::reset`, threading the food and the generator it resets. -/
def Snake.reset (s : Snake) (food : Food) (gen : Gen) : Snake × Food × Gen :=
  let r := food.reset gen
  ({ s with segments := [⟨⟨SCREEN_WIDTH / 2, SCREEN_HEIGHT / 2⟩, ⟨35, 35⟩⟩],
            direction := ⟨1, 0⟩, isAlive := true, points := 0 }, r.1, r.2)

/-! ## The game: globals, input and the main loop -/

/-- The globals of the program. -/
structure Game where
  gen : Gen
  running : Bool
  isMainMenu : Bool
  currentState : ScreenState
  food : Food
  snake : Snake

/-- The globals after static initialisation, for a generator seeded with `seed`. -/
def Game.init (seed : Gen) : Game :=
  let r := Food.init seed
  { gen := r.2, running := true, isMainMenu := true, currentState := ScreenState.MENU,
    food := r.1, snake := Snake.init }

/-- What `SDL_PollEvent` can deliver.  `SDL_QUIT` falls through into the key case,
which then reads the key member of the event union: `quit` carries that value. -/
inductive Event
  | quit (sym : Int)
  | keyDown (sym : Int)
  | other
  deriving DecidableEq, Repr

/-- The statements under `case SDL_KEYDOWN:` in `input`, for the key code `sym`. -/
def keyDown (sym : Int) (g : Game) : Game :=
  let g1 := if sym == SDLK_q then { g with running := false } else g
  let g2 :=
    if sym == SDLK_SPACE && g1.isMainMenu then
      let r := g1.snake.reset g1.food g1.gen
      { g1 with snake := r.1, food := r.2.1, gen := r.2.2, currentState := ScreenState.PLAY }
    else g1
  let g3 :=
    if sym == SDLK_SPACE && !g2.isMainMenu then
      let r := g2.snake.reset g2.food g2.gen
      { g2 with isMainMenu := true, snake := r.1, food := r.2.1, gen := r.2.2,
                currentState := ScreenState.MENU }
    else g2
  { g3 with snake := g3.snake.updateSnakeInput sym }

/-- The body of the `switch (event.type)` in `input` for one polled event. -/
def inputEvent (g : Game) (e : Event) : Game :=
  match e with
  | Event.quit sym => keyDown sym { g with running := false }
  | Event.keyDown sym => keyDown sym g
  | Event.other => g

/-- The function `input`: all pending events, in arrival order. -/
def input (events : List Event) (g : Game) : Game :=
  events.foldl inputEvent g

/-- The `switch (currentState)` of the main loop: only `PLAY` runs the simulation. -/
def simulate (g : Game) : Option Game :=
  match g.currentState with
  | ScreenState.MENU => some g
  | ScreenState.PLAY =>
    match g.snake.updateSnake with
    | none => none
    | some s1 =>
      match s1.eatFood g.food g.gen with
      | none => none
      | some r => some { g with snake := r.1, food := r.2.1, gen := r.2.2 }
  | ScreenState.GAME_OVER => some g

/-- The check `if (!snake.getIsAlive()) currentState = ScreenState::GAME_OVER;`. -/
def livenessCheck (g : Game) : Game :=
  if !g.snake.isAlive then { g with currentState := ScreenState.GAME_OVER } else g

/-- One iteration of the `while (running)` body, the frame receiving `events`. -/
def frame (events : List Event) (g : Game) : Option Game :=
  match simulate g with
  | none => none
  | some g1 => some (livenessCheck (input events g1))

/-- The loop `while (running)`, fed with the events of the successive frames. -/
def mainLoop : List (List Event) → Game → Option Game
  | [], g => some g
  | events :: rest, g =>
    if g.running then
      match frame events g with
      | none => none
      | some g1 => mainLoop rest g1
    else some g

/-- One simulation step of a `PLAY` frame on the snake alone: `updateSnake`, then
`eatFood` with the food and generator of that frame. -/
def tick (s : Snake) (food : Food) (gen : Gen) : Option Snake :=
  match s.updateSnake with
  | none => none
  | some s1 =>
    match s1.eatFood food gen with
    | none => none
    | some r => some r.1

/-- The snake after `n` ticks, tick `k + 1` meeting the food and generator `ctx k`. -/
def snakeAfter (s : Snake) (ctx : Nat → Food × Gen) : Nat → Option Snake
  | 0 => some s
  | n + 1 =>
    match snakeAfter s ctx n with
    | none => none
    | some sn => tick sn (ctx n).1 (ctx n).2

/-- The two statements `segments[0].position.x += direction.x * speed;` and
`segments[0].position.y += direction.y * speed;` as a map on positions. -/
def advance (p d : Position) (speed : Int) : Position :=
  ⟨p.x + d.x * speed, p.y + d.y * speed⟩

/-! ## Concrete states used as test points -/

/-- A living one-segment snake heading right whose next step ends at `x = 766`. -/
def snakeAt762 : Snake :=
  { segments := [⟨⟨762, 300⟩, ⟨35, 35⟩⟩] }

/-- The snake of the movement scenario: head at `(400, 300)`, direction `(1, 0)`, speed 4. -/
def snakeAtCentre : Snake :=
  { segments := [⟨⟨400, 300⟩, ⟨35, 35⟩⟩], direction := ⟨1, 0⟩, speed := 4 }

/-- The four headings a key can select: up, down, left, right. -/
def isCardinal (d : Position) : Prop :=
  d = ⟨0, -1⟩ ∨ d = ⟨0, 1⟩ ∨ d = ⟨-1, 0⟩ ∨ d = ⟨1, 0⟩

instance (d : Position) : Decidable (isCardinal d) := by
  unfold isCardinal
  infer_instance

/-- A food lying on the head of `snakeAtCentre`. -/
def foodAtCentre : Food :=
  { size := ⟨35, 35⟩, position := ⟨400, 300⟩ }

/-- A food far away from the head of `snakeAtCentre`. -/
def foodAtOrigin : Food :=
  { size := ⟨35, 35⟩, position := ⟨0, 0⟩ }

/-- A generator whose raw draws are all zero. -/
def zeroGen : Gen := fun _ => 0

/-- The operations of the class `Snake` that change its state, with their arguments. -/
inductive Op
  | updateSnakeInput (sym : Int)
  | updateSnake
  | eatFood (food : Food) (gen : Gen)
  | reset (food : Food) (gen : Gen)

/-- The snake left by one operation. -/
def Op.apply (op : Op) (s : Snake) : Option Snake :=
  match op with
  | Op.updateSnakeInput sym => some (s.updateSnakeInput sym)
  | Op.updateSnake => s.updateSnake
  | Op.eatFood food gen => (s.eatFood food gen).map (fun r => r.1)
  | Op.reset food gen => some (s.reset food gen).1

/-- The snake left by a sequence of operations, applied from left to right. -/
def applyOps : List Op → Snake → Option Snake
  | [], s => some s
  | op :: ops, s =>
    match op.apply s with
    | none => none
    | some s1 => applyOps ops s1

/-- Whether an operation is a call of `reset`. -/
def Op.isReset : Op → Bool
  | Op.reset _ _ => true
  | _ => false

/-- A dead snake of three segments heading up, with two points. -/
def deadSnake : Snake :=
  { segments := [⟨⟨768, 300⟩, ⟨35, 35⟩⟩, ⟨⟨764, 300⟩, ⟨35, 35⟩⟩, ⟨⟨760, 300⟩, ⟨35, 35⟩⟩],
    direction := ⟨0, -1⟩, speed := 4, points := 2, isAlive := false }

/-- The events of three frames: the space bar in the first one, none afterwards. -/
def threeFrames : List (List Event) :=
  [[Event.keyDown SDLK_SPACE], [], []]

/-- What every state of the main loop satisfies: the snake has a segment, and a
`GAME_OVER` screen shows a dead snake. -/
def GameInv (g : Game) : Prop :=
  g.snake.segments ≠ [] ∧ (g.currentState = ScreenState.GAME_OVER → g.snake.isAlive = false)

/-- The events of a game left alone: the space bar in the first frame, then 92 frames
without any event, during which the snake runs into the right border. -/
def idleFrames : List (List Event) :=
  [Event.keyDown SDLK_SPACE] :: List.replicate 92 []

/-- Ticks that always meet a food lying at `(400, 300)`. -/
def centreFoodCtx : Nat → Food × Gen :=
  fun _ => (foodAtCentre, zeroGen)

/-- The direction each key of `updateSnakeInput` asks for: the vector assigned in the
branch of that key (`w` up, `s` down, `a` left, `d` right), none for any other key. -/
def keyVector (sym : Int) : Option Position :=
  if sym == SDLK_w then some ⟨0, -1⟩
  else if sym == SDLK_s then some ⟨0, 1⟩
  else if sym == SDLK_a then some ⟨-1, 0⟩
  else if sym == SDLK_d then some ⟨1, 0⟩
  else none

/-- A generator whose first two raw draws are `a` and `b`. -/
def twoDraws (a b : Nat) : Gen :=
  fun n => if n = 0 then a else b

/-- The direction keys of one frame handed to `updateSnakeInput` in arrival order. -/
def applyKeys (keys : List Int) (s : Snake) : Snake :=
  keys.foldl Snake.updateSnakeInput s

/-- A run of `PLAY` frames seen from the snake.  Tick `n + 1` comes after the key events
`(ctx n).1` and meets the food and generator `(ctx n).2`.  The result after `n` ticks is
the pair of the snake right after the `updateSnake` of tick `n` and the snake at the end
of tick `n`, after its `eatFood`; before any tick both are the start snake. -/
def playTicks (s : Snake) (ctx : Nat → List Int × Food × Gen) : Nat → Option (Snake × Snake)
  | 0 => some (s, s)
  | n + 1 =>
    match playTicks s ctx n with
    | none => none
    | some r =>
      match (applyKeys (ctx n).1 r.2).updateSnake with
      | none => none
      | some mid =>
        match mid.eatFood (ctx n).2.1 (ctx n).2.2 with
        | none => none
        | some e => some (mid, e.1)

/-- Frames that turn the snake up and back right before each tick and always meet a food
lying at `(400, 300)`. -/
def turningCtx : Nat → List Int × Food × Gen :=
  fun n => (if n % 2 = 0 then [SDLK_w] else [SDLK_d], foodAtCentre, zeroGen)

/-- What links the two snakes of `playTicks`: both have a segment, `eatFood` added at most
one segment and left the others alone. -/
def PairInv (r : Snake × Snake) : Prop :=
  r.2.segments ≠ [] ∧ r.2.segments.length ≤ r.1.segments.length + 1 ∧
  ∀ j, j < r.1.segments.length → r.2.segments[j]? = r.1.segments[j]?

/-- A living two-segment snake heading right, its body directly behind the head. -/
def snakeOfTwo : Snake :=
  { segments := [⟨⟨400, 300⟩, ⟨35, 35⟩⟩, ⟨⟨396, 300⟩, ⟨35, 35⟩⟩], points := 1 }

/-- A food lying at `(740, 300)`, close to the right border. -/
def foodAt740 : Food :=
  { size := ⟨35, 35⟩, position := ⟨740, 300⟩ }

/-- A `PLAY` state with a one-segment snake at `(764, 300)` heading right and the food at
`(740, 300)` on the same row. -/
def gameAt764 : Game :=
  { gen := zeroGen, running := true, isMainMenu := true, currentState := ScreenState.PLAY,
    food := foodAt740,
    snake := { segments := [⟨⟨764, 300⟩, ⟨35, 35⟩⟩] } }

/-- Raw draws that put the food at `(765, 300)` when the game starts and at `(740, 300)`
every time it is eaten. -/
def rowGen : Gen :=
  fun n => if n % 2 = 1 then 300 else if n = 2 then 765 else 740

/-- The values a 32-bit `int` of the program can hold. -/
def inInt32 (z : Int) : Prop :=
  -2147483648 ≤ z ∧ z ≤ 2147483647

instance (z : Int) : Decidable (inInt32 z) := by
  unfold inInt32
  infer_instance

/-- The value a 32-bit two's complement `int` holds after an operation whose exact
result is `z`. -/
def wrap32 (z : Int) : Int :=
  (z + 2147483648) % 4294967296 - 2147483648

/-- The head of `snakeOfThree`. -/
def snakeOfThreeHead : Segment :=
  ⟨⟨400, 300⟩, ⟨35, 35⟩⟩

/-- The segments of `snakeOfThree` behind its head. -/
def snakeOfThreeBody : List Segment :=
  [⟨⟨396, 300⟩, ⟨35, 35⟩⟩, ⟨⟨392, 300⟩, ⟨35, 35⟩⟩]

/-- A living three-segment snake lying on the row 300 that has just turned up. -/
def snakeOfThree : Snake :=
  { segments := snakeOfThreeHead :: snakeOfThreeBody, direction := ⟨0, -1⟩, speed := 4,
    points := 2 }

/-- What every snake reached from the constructed one satisfies: it has a segment, heads
in a cardinal direction at speed 4, scores one point per segment after the first, has
35x35 segments only and, while alive, lies on the screen with every segment. -/
def SnakeInv (s : Snake) : Prop :=
  s.segments ≠ [] ∧ isCardinal s.direction ∧ s.speed = 4 ∧
  s.points + 1 = (s.segments.length : Int) ∧
  (∀ sg ∈ s.segments, sg.size = ⟨35, 35⟩) ∧
  (s.isAlive = true → ∀ sg ∈ s.segments,
    0 ≤ sg.position.x ∧ sg.position.x ≤ 765 ∧ 0 ≤ sg.position.y ∧ sg.position.y ≤ 565)

/-! ## Auxiliary facts about the loops of `updateSnake` -/

theorem setPosition_eq (segments : List Segment) (i : Nat) (p : Position) (sg : Segment)
    (h : segments[i]? = some sg) :
    setPosition segments i p = some (segments.set i { sg with position := p }) := by
  simp [setPosition, h]

/-- The shifting loop started at `i` succeeds, keeps the length, leaves segment `0` and the
segments above `i` alone and gives every segment `1 ≤ j ≤ i` the old position `j - 1`. -/
theorem shiftLoop_spec (old : List Position) :
    ∀ (i : Nat) (segs : List Segment), i < segs.length → i ≤ old.length →
      ∃ r, shiftLoop old i segs = some r ∧ r.length = segs.length ∧
        (∀ j, (j = 0 ∨ i < j) → r[j]? = segs[j]?) ∧
        (∀ j, j < i → ∃ sg p, segs[j + 1]? = some sg ∧ old[j]? = some p ∧
          r[j + 1]? = some { sg with position := p }) := by
  intro i
  induction i with
  | zero =>
    intro segs _ _
    exact ⟨segs, rfl, rfl, fun _ _ => rfl, fun j hj => absurd hj (Nat.not_lt_zero j)⟩
  | succ i ih =>
    intro segs hi hold
    obtain ⟨p, hp⟩ : ∃ p, old[i]? = some p :=
      ⟨old[i], List.getElem?_eq_getElem (by omega)⟩
    obtain ⟨sg, hsg⟩ : ∃ sg, segs[i + 1]? = some sg :=
      ⟨segs[i + 1], List.getElem?_eq_getElem hi⟩
    have hset := setPosition_eq segs (i + 1) p sg hsg
    have hlen1 : (segs.set (i + 1) { sg with position := p }).length = segs.length := by
      simp
    obtain ⟨r, hr, hrlen, hkeep, hmove⟩ :=
      ih (segs.set (i + 1) { sg with position := p }) (by rw [hlen1]; omega) (by omega)
    refine ⟨r, ?_, ?_, ?_, ?_⟩
    · simp only [shiftLoop, hp, hset, hr]
    · rw [hrlen, hlen1]
    · intro j hj
      have hne : i + 1 ≠ j := by omega
      rw [hkeep j (by omega), List.getElem?_set_ne hne]
    · intro j hj
      by_cases hji : j < i
      · obtain ⟨sg1, p1, h1, h2, h3⟩ := hmove j hji
        have hne : i + 1 ≠ j + 1 := by omega
        rw [List.getElem?_set_ne hne] at h1
        exact ⟨sg1, p1, h1, h2, h3⟩
      · have hj_eq : j = i := by omega
        subst hj_eq
        refine ⟨sg, p, hsg, hp, ?_⟩
        rw [hkeep (j + 1) (Or.inr (Nat.lt_succ_self j))]
        rw [List.getElem?_set_eq_of_lt _ hi]

/-- The collision loop succeeds while its indices stay inside `old`, and it clears the
flag exactly when the head equals one of the positions it visits. -/
theorem collisionLoop_spec (head : Position) (old : List Position) :
    ∀ (left i : Nat) (alive : Bool), i + left ≤ old.length →
      ∃ b, collisionLoop head old left i alive = some b ∧
        (b = false ↔ alive = false ∨ ∃ j, i ≤ j ∧ j < i + left ∧ old[j]? = some head) := by
  intro left
  induction left with
  | zero =>
    intro i alive _
    refine ⟨alive, rfl, ?_⟩
    constructor
    · intro h; exact Or.inl h
    · rintro (h | ⟨j, h1, h2, _⟩)
      · exact h
      · omega
  | succ left ih =>
    intro i alive hlen
    obtain ⟨p, hp⟩ : ∃ p, old[i]? = some p :=
      ⟨old[i], List.getElem?_eq_getElem (by omega)⟩
    obtain ⟨b, hb, hiff⟩ := ih (i + 1)
      (if head.x == p.x && head.y == p.y then false else alive) (by omega)
    refine ⟨b, ?_, ?_⟩
    · simp only [collisionLoop, hp, hb]
    · rw [hiff]
      have hhead : (head.x == p.x && head.y == p.y) = true ↔ head = p := by
        cases head; cases p; simp
      constructor
      · rintro (h | ⟨j, h1, h2, h3⟩)
        · by_cases hc : (head.x == p.x && head.y == p.y) = true
          · right
            exact ⟨i, le_refl i, by omega, by rw [hp, hhead.mp hc]⟩
          · left
            simpa [hc] using h
        · right
          exact ⟨j, by omega, by omega, h3⟩
      · rintro (h | ⟨j, h1, h2, h3⟩)
        · left
          simp [h]
        · by_cases hji : j = i
          · left
            subst hji
            rw [hp] at h3
            have hph : head = p := (Option.some.inj h3).symm
            simp [hhead.mpr hph]
          · right
            exact ⟨j, by omega, by omega, h3⟩

/-- Complete description of one `updateSnake` call on a living snake with a head. -/
theorem updateSnake_spec (s : Snake) (halive : s.isAlive = true) (seg0 : Segment)
    (rest : List Segment) (hsegs : s.segments = seg0 :: rest) :
    ∃ s1, s.updateSnake = some s1 ∧ s1.direction = s.direction ∧ s1.speed = s.speed ∧
      s1.points = s.points ∧ s1.segments.length = s.segments.length ∧
      s1.segments[0]? =
        some { seg0 with position := advance seg0.position s.direction s.speed } ∧
      (∀ j sg prev, s.segments[j + 1]? = some sg → s.segments[j]? = some prev →
        s1.segments[j + 1]? = some { sg with position := prev.position }) ∧
      (s1.isAlive = false ↔
        (∃ j sg, 1 ≤ j ∧ s.segments[j]? = some sg ∧
          sg.position = advance seg0.position s.direction s.speed) ∨
        (advance seg0.position s.direction s.speed).x < 0 ∨
        (advance seg0.position s.direction s.speed).x > SCREEN_WIDTH - seg0.size.width ∨
        (advance seg0.position s.direction s.speed).y < 0 ∨
        (advance seg0.position s.direction s.speed).y > SCREEN_HEIGHT - seg0.size.height) := by
  have hlen : s.segments.length = rest.length + 1 := by rw [hsegs]; rfl
  obtain ⟨r, hr, hrlen, hkeep, hmove⟩ :=
    shiftLoop_spec (s.segments.map (fun sg => sg.position)) (s.segments.length - 1)
      s.segments (by omega) (by simp)
  have hr0 : r[0]? = some seg0 := by
    rw [hkeep 0 (Or.inl rfl), hsegs]; simp
  obtain ⟨rest1, hrest1⟩ : ∃ rest1, r = seg0 :: rest1 := by
    cases r with
    | nil => simp at hr0
    | cons a t =>
      refine ⟨t, ?_⟩
      simp at hr0
      rw [hr0]
  obtain ⟨b, hb, hbiff⟩ :=
    collisionLoop_spec (advance seg0.position s.direction s.speed)
      (s.segments.map (fun sg => sg.position)) (s.segments.length - 1) 1 true
      (by simp; omega)
  have hne : ¬ (rest.length + 1 = 0) := by omega
  have hupd : s.updateSnake = some
      { s with
        segments := { seg0 with position := advance seg0.position s.direction s.speed } :: rest1,
        isAlive :=
          if (advance seg0.position s.direction s.speed).y > SCREEN_HEIGHT - seg0.size.height
          then false
          else if (advance seg0.position s.direction s.speed).y < 0 then false
          else if (advance seg0.position s.direction s.speed).x > SCREEN_WIDTH - seg0.size.width
          then false
          else if (advance seg0.position s.direction s.speed).x < 0 then false else b } := by
    unfold Snake.updateSnake
    simp only [halive, Bool.not_true, Bool.false_eq_true, if_false]
    rw [if_neg (by rw [hlen]; exact hne)]
    simp only [hr, hrest1]
    unfold advance at hb
    simp only [hb]
    rfl
  refine ⟨_, hupd, rfl, rfl, rfl, ?_, ?_, ?_, ?_⟩
  · have := hrlen
    rw [hrest1] at this
    simpa using this
  · simp
  · intro j sg prev hsg hprev
    have hj : j < s.segments.length - 1 := by
      have := (List.getElem?_eq_some.mp hsg).1
      omega
    obtain ⟨sg1, p1, h1, h2, h3⟩ := hmove j hj
    rw [hsg] at h1
    have hsg1 : sg1 = sg := (Option.some.inj h1).symm
    rw [List.getElem?_map, hprev] at h2
    have hp1 : p1 = prev.position := (Option.some.inj h2).symm
    subst hsg1
    subst hp1
    rw [hrest1] at h3
    simpa using h3
  · have hcoll : b = false ↔ ∃ j sg, 1 ≤ j ∧ s.segments[j]? = some sg ∧
        sg.position = advance seg0.position s.direction s.speed := by
      rw [hbiff]
      constructor
      · rintro (h | ⟨j, h1, _, h3⟩)
        · exact absurd h (by decide)
        · rw [List.getElem?_map] at h3
          cases hj : s.segments[j]? with
          | none => rw [hj] at h3; simp at h3
          | some sg =>
            rw [hj] at h3
            exact ⟨j, sg, h1, hj, by simpa using h3⟩
      · rintro ⟨j, sg, h1, h2, h3⟩
        right
        refine ⟨j, h1, ?_, ?_⟩
        · have := (List.getElem?_eq_some.mp h2).1
          omega
        · rw [List.getElem?_map, h2]
          simp [h3]
    rw [← hcoll]
    simp only [gt_iff_lt]
    by_cases c1 : (advance seg0.position s.direction s.speed).x < 0 <;>
    by_cases c2 : SCREEN_WIDTH - seg0.size.width < (advance seg0.position s.direction s.speed).x <;>
    by_cases c3 : (advance seg0.position s.direction s.speed).y < 0 <;>
    by_cases c4 : SCREEN_HEIGHT - seg0.size.height < (advance seg0.position s.direction s.speed).y <;>
    simp [c1, c2, c3, c4]

/-- One `updateSnake` call keeps the size of every segment. -/
theorem updateSnake_sizes (s s1 : Snake) (h : s.updateSnake = some s1) :
    s1.segments.map (fun sg => sg.size) = s.segments.map (fun sg => sg.size) := by
  cases halive : s.isAlive with
  | false =>
    have : s.updateSnake = some s := by simp [Snake.updateSnake, halive]
    rw [this] at h
    rw [← Option.some.inj h]
  | true =>
    cases hsegs : s.segments with
    | nil => simp [Snake.updateSnake, halive, hsegs] at h
    | cons seg0 rest =>
      obtain ⟨s2, h2, _, _, _, hlen, h0, hshift, _⟩ := updateSnake_spec s halive seg0 rest hsegs
      rw [h] at h2
      have hs : s2 = s1 := (Option.some.inj h2).symm
      subst hs
      rw [← hsegs]
      apply List.ext_getElem?
      intro j
      rw [List.getElem?_map, List.getElem?_map]
      cases j with
      | zero => rw [h0, hsegs]; simp
      | succ j =>
        cases hj : s.segments[j + 1]? with
        | none =>
          have : s2.segments[j + 1]? = none := by
            rw [List.getElem?_eq_none_iff] at hj ⊢
            omega
          rw [this]
        | some sg =>
          have hjlt : j < s.segments.length := by
            have := (List.getElem?_eq_some.mp hj).1
            omega
          rw [hshift j sg s.segments[j] hj (List.getElem?_eq_getElem hjlt)]
          rfl

/-- A dead snake is returned as it is by `updateSnake`. -/
theorem updateSnake_dead (s : Snake) (h : s.isAlive = false) : s.updateSnake = some s := by
  simp [Snake.updateSnake, h]

/-- With at least one segment `updateSnake` returns, and it keeps the number of segments,
the direction, the speed and the score. -/
theorem updateSnake_total (s : Snake) (hne : s.segments ≠ []) :
    ∃ s1, s.updateSnake = some s1 ∧ s1.segments.length = s.segments.length ∧
      s1.direction = s.direction ∧ s1.speed = s.speed ∧ s1.points = s.points := by
  cases halive : s.isAlive with
  | false => exact ⟨s, updateSnake_dead s halive, rfl, rfl, rfl, rfl⟩
  | true =>
    cases hsegs : s.segments with
    | nil => exact absurd hsegs hne
    | cons seg0 rest =>
      obtain ⟨s1, h1, hd, hsp, hpt, hlen, _⟩ := updateSnake_spec s halive seg0 rest hsegs
      rw [hsegs] at hlen
      exact ⟨s1, h1, hlen, hd, hsp, hpt⟩

/-- The method `updateSnakeInput` writes the direction only. -/
theorem updateSnakeInput_fields (s : Snake) (sym : Int) :
    (s.updateSnakeInput sym).segments = s.segments ∧
    (s.updateSnakeInput sym).speed = s.speed ∧
    (s.updateSnakeInput sym).points = s.points ∧
    (s.updateSnakeInput sym).isAlive = s.isAlive := by
  simp only [Snake.updateSnakeInput]
  split_ifs <;> exact ⟨rfl, rfl, rfl, rfl⟩

/-- With at least one segment `eatFood` returns: on a hit the snake with one more segment
on its tail and one more point, the food reset; otherwise everything as it was. -/
theorem eatFood_total (s : Snake) (food : Food) (gen : Gen) (hne : s.segments ≠ []) :
    ∃ b tail, s.isColliding food = some b ∧ s.segments.getLast? = some tail ∧
      s.eatFood food gen = some
        (if b then
          ({ s with segments := s.segments ++ [⟨tail.position, ⟨35, 35⟩⟩],
                    points := s.points + 1 }, (food.reset gen).1, (food.reset gen).2)
         else (s, food, gen)) := by
  cases hsegs : s.segments with
  | nil => exact absurd hsegs hne
  | cons seg0 rest =>
    have h0 : s.segments[0]? = some seg0 := by rw [hsegs]; simp
    have hlast : s.segments.getLast? = some ((seg0 :: rest).getLast (by simp)) := by
      rw [hsegs]; exact List.getLast?_eq_getLast _ _
    cases hb : (decide (seg0.position.x + seg0.size.width ≥ food.position.x) &&
          decide (seg0.position.x ≤ food.position.x + food.size.width) &&
          decide (seg0.position.y + seg0.size.height ≥ food.position.y) &&
          decide (seg0.position.y ≤ food.position.y + food.size.height)) with
    | false =>
      have hc : s.isColliding food = some false := by
        simp only [Snake.isColliding, h0, hb]
      refine ⟨false, _, hc, by rw [← hsegs]; exact hlast, ?_⟩
      simp [Snake.eatFood, hc]
    | true =>
      have hc : s.isColliding food = some true := by
        simp only [Snake.isColliding, h0, hb]
      refine ⟨true, _, hc, by rw [← hsegs]; exact hlast, ?_⟩
      simp only [Snake.eatFood, hc, hlast]
      simp [hsegs]

/-- The food drawn by `Food::reset` for a 35x35 food lies in `[0, 765] x [0, 565]`. -/
theorem Food.reset_range (food : Food) (gen : Gen) (hf : food.size = ⟨35, 35⟩) :
    0 ≤ (food.reset gen).1.position.x ∧ (food.reset gen).1.position.x ≤ 765 ∧
    0 ≤ (food.reset gen).1.position.y ∧ (food.reset gen).1.position.y ≤ 565 := by
  simp only [Food.reset, uniformInt, hf, SCREEN_WIDTH, SCREEN_HEIGHT]
  refine ⟨?_, ?_, ?_, ?_⟩ <;> omega

/-! ## Auxiliary facts about `input` and the main loop -/

/-- Handling a key keeps the flag `isMainMenu` set. -/
theorem keyDown_isMainMenu (sym : Int) (g : Game) (h : g.isMainMenu = true) :
    (keyDown sym g).isMainMenu = true := by
  simp only [keyDown]
  split_ifs <;> simp_all

/-- While `isMainMenu` is set, the space bar resets the snake and selects `PLAY`. -/
theorem keyDown_space (g : Game) (h : g.isMainMenu = true) :
    (keyDown SDLK_SPACE g).currentState = ScreenState.PLAY ∧
    (keyDown SDLK_SPACE g).snake = (g.snake.reset g.food g.gen).1 ∧
    (keyDown SDLK_SPACE g).food = (g.food.reset g.gen).1 := by
  simp only [keyDown]
  simp [h, SDLK_SPACE, SDLK_q, Snake.updateSnakeInput, Snake.reset, SDLK_w, SDLK_s, SDLK_a,
    SDLK_d]

/-- Handling a key never selects `GAME_OVER`. -/
theorem keyDown_state (sym : Int) (g : Game)
    (h : (keyDown sym g).currentState = ScreenState.GAME_OVER) :
    g.currentState = ScreenState.GAME_OVER := by
  simp only [keyDown] at h
  split_ifs at h <;> simp_all

/-- Handling a key keeps `GameInv`. -/
theorem keyDown_inv (sym : Int) (g : Game) (h : GameInv g) : GameInv (keyDown sym g) := by
  obtain ⟨h1, h2⟩ := h
  unfold GameInv
  simp only [keyDown]
  split_ifs <;>
    simp_all [(updateSnakeInput_fields _ _).1, (updateSnakeInput_fields _ _).2.2.2, Snake.reset]

/-- Handling one event keeps `isMainMenu`, `GameInv` and never selects `GAME_OVER`. -/
theorem inputEvent_facts (g : Game) (e : Event) :
    (g.isMainMenu = true → (inputEvent g e).isMainMenu = true) ∧
    (GameInv g → GameInv (inputEvent g e)) ∧
    ((inputEvent g e).currentState = ScreenState.GAME_OVER →
      g.currentState = ScreenState.GAME_OVER) := by
  cases e with
  | quit sym =>
    exact ⟨fun h => keyDown_isMainMenu sym { g with running := false } h,
      fun h => keyDown_inv sym { g with running := false } h,
      fun h => keyDown_state sym { g with running := false } h⟩
  | keyDown sym =>
    exact ⟨keyDown_isMainMenu sym g, keyDown_inv sym g, keyDown_state sym g⟩
  | other => exact ⟨id, id, id⟩

/-- The whole of `input` keeps `isMainMenu`, `GameInv` and never selects `GAME_OVER`. -/
theorem input_facts (events : List Event) :
    ∀ g : Game, (g.isMainMenu = true → (input events g).isMainMenu = true) ∧
      (GameInv g → GameInv (input events g)) ∧
      ((input events g).currentState = ScreenState.GAME_OVER →
        g.currentState = ScreenState.GAME_OVER) := by
  induction events with
  | nil => intro g; exact ⟨id, id, id⟩
  | cons e es ih =>
    intro g
    obtain ⟨a1, a2, a3⟩ := inputEvent_facts g e
    obtain ⟨b1, b2, b3⟩ := ih (inputEvent g e)
    exact ⟨fun h => b1 (a1 h), fun h => b2 (a2 h), fun h => a3 (b3 h)⟩

/-- The state switch of the loop returns whenever the snake has a segment; it keeps the
screen, the flags and the fact that the snake has a segment. -/
theorem simulate_total (g : Game) (hne : g.snake.segments ≠ []) :
    ∃ g1, simulate g = some g1 ∧ g1.currentState = g.currentState ∧
      g1.isMainMenu = g.isMainMenu ∧ g1.running = g.running ∧ g1.snake.segments ≠ [] ∧
      (g.currentState ≠ ScreenState.PLAY → g1.snake = g.snake) := by
  cases hst : g.currentState with
  | MENU => exact ⟨g, by simp [simulate, hst], hst, rfl, rfl, hne, fun _ => rfl⟩
  | GAME_OVER => exact ⟨g, by simp [simulate, hst], hst, rfl, rfl, hne, fun _ => rfl⟩
  | PLAY =>
    obtain ⟨s1, h1, hlen, _⟩ := updateSnake_total g.snake hne
    have hne1 : s1.segments ≠ [] := by
      intro h
      rw [h] at hlen
      exact hne (List.length_eq_zero.mp hlen.symm)
    obtain ⟨r, he, hner⟩ : ∃ r, s1.eatFood g.food g.gen = some r ∧ r.1.segments ≠ [] := by
      obtain ⟨b, tail, _, _, he⟩ := eatFood_total s1 g.food g.gen hne1
      refine ⟨_, he, ?_⟩
      cases b <;> simp [hne1]
    exact ⟨{ g with snake := r.1, food := r.2.1, gen := r.2.2 },
      by simp only [simulate, hst, h1, he], hst, rfl, rfl, hner, fun h => absurd rfl h⟩

/-- The state switch of the loop does not write `currentState`. -/
theorem simulate_state (g g1 : Game) (h : simulate g = some g1) :
    g1.currentState = g.currentState := by
  cases hst : g.currentState with
  | MENU =>
    simp only [simulate, hst, Option.some.injEq] at h
    rw [← h, hst]
  | GAME_OVER =>
    simp only [simulate, hst, Option.some.injEq] at h
    rw [← h, hst]
  | PLAY =>
    simp only [simulate, hst] at h
    cases h1 : g.snake.updateSnake with
    | none => simp [h1] at h
    | some s1 =>
      cases h2 : s1.eatFood g.food g.gen with
      | none => simp [h1, h2] at h
      | some r =>
        simp only [h1, h2, Option.some.injEq] at h
        rw [← h]

/-- One frame returns from every state satisfying `GameInv`; at its end the screen is
`GAME_OVER` exactly when the snake is dead. -/
theorem frame_facts (events : List Event) (g : Game) (h : GameInv g) :
    ∃ g1, frame events g = some g1 ∧ g1.snake.segments ≠ [] ∧
      (g1.currentState = ScreenState.GAME_OVER ↔ g1.snake.isAlive = false) ∧
      (g.isMainMenu = true → g1.isMainMenu = true) := by
  obtain ⟨hne, hover⟩ := h
  obtain ⟨g1, h1, hst, hmm, _, hne1, hsame⟩ := simulate_total g hne
  have hinv1 : GameInv g1 := by
    refine ⟨hne1, ?_⟩
    intro hg
    rw [hst] at hg
    rw [hsame (by rw [hg]; decide)]
    exact hover hg
  obtain ⟨a1, a2, _⟩ := input_facts events g1
  obtain ⟨hne2, hover2⟩ := a2 hinv1
  refine ⟨livenessCheck (input events g1), by simp only [frame, h1], ?_, ?_, ?_⟩
  · unfold livenessCheck
    split_ifs <;> exact hne2
  · unfold livenessCheck
    cases hal : (input events g1).snake.isAlive with
    | false => simp [hal]
    | true =>
      simp only [hal, Bool.not_true, Bool.false_eq_true, if_false]
      constructor
      · intro hg
        have := hover2 hg
        rw [hal] at this
        exact this
      · intro hc
        exact absurd hc (by decide)
  · intro hm
    have := a1 (by rw [hmm]; exact hm)
    unfold livenessCheck
    split_ifs <;> exact this

/-- The main loop returns from every state satisfying the frame-end condition, in a state
satisfying it again. -/
theorem mainLoop_facts (frames : List (List Event)) :
    ∀ g : Game, g.snake.segments ≠ [] →
      (g.currentState = ScreenState.GAME_OVER ↔ g.snake.isAlive = false) →
      ∃ g1, mainLoop frames g = some g1 ∧ g1.snake.segments ≠ [] ∧
        (g1.currentState = ScreenState.GAME_OVER ↔ g1.snake.isAlive = false) ∧
        (g.isMainMenu = true → g1.isMainMenu = true) := by
  induction frames with
  | nil => intro g hne hiff; exact ⟨g, rfl, hne, hiff, id⟩
  | cons events rest ih =>
    intro g hne hiff
    cases hrun : g.running with
    | false => exact ⟨g, by simp [mainLoop, hrun], hne, hiff, id⟩
    | true =>
      obtain ⟨g1, h1, hne1, hiff1, hm1⟩ := frame_facts events g ⟨hne, hiff.mp⟩
      obtain ⟨g2, h2, hne2, hiff2, hm2⟩ := ih g1 hne1 hiff1
      exact ⟨g2, by simp [mainLoop, hrun, h1, h2], hne2, hiff2, fun h => hm2 (hm1 h)⟩

/-! ## Auxiliary facts about ticks -/

/-- One tick of a living snake with a head: it returns, keeps direction and speed, adds at
most one segment, advances the head and hands every old position one index further. -/
theorem tick_spec (s : Snake) (food : Food) (gen : Gen) (halive : s.isAlive = true)
    (hne : s.segments ≠ []) :
    ∃ s1, tick s food gen = some s1 ∧ s1.direction = s.direction ∧ s1.speed = s.speed ∧
      s.segments.length ≤ s1.segments.length ∧
      s1.segments.length ≤ s.segments.length + 1 ∧
      (∀ seg0, s.segments[0]? = some seg0 →
        (s1.segments[0]?).map (fun sg => sg.position)
          = some (advance seg0.position s.direction s.speed)) ∧
      (∀ j prev, j + 1 < s.segments.length → s.segments[j]? = some prev →
        (s1.segments[j + 1]?).map (fun sg => sg.position) = some prev.position) := by
  cases hsegs : s.segments with
  | nil => exact absurd hsegs hne
  | cons seg0 rest =>
    obtain ⟨s1, h1, hd, hsp, _, hlen, h0, hshift, _⟩ :=
      updateSnake_spec s halive seg0 rest hsegs
    rw [hsegs] at hlen hshift
    have hne1 : s1.segments ≠ [] := by
      intro h
      rw [h] at hlen
      simp at hlen
    obtain ⟨b, tail, _, _, he⟩ := eatFood_total s1 food gen hne1
    have hkeep : ∀ j, j < s1.segments.length →
        (s1.segments ++ [(⟨tail.position, ⟨35, 35⟩⟩ : Segment)])[j]? = s1.segments[j]? :=
      fun j hj => List.getElem?_append_left hj
    have h0a : ∀ seg0a, (seg0 :: rest)[0]? = some seg0a →
        (s1.segments[0]?).map (fun sg => sg.position)
          = some (advance seg0a.position s.direction s.speed) := by
      intro seg0a hseg0a
      have hsame : seg0a = seg0 := by simpa using hseg0a.symm
      rw [hsame, h0]
      rfl
    have hsh : ∀ j prev, j + 1 < (seg0 :: rest).length → (seg0 :: rest)[j]? = some prev →
        (s1.segments[j + 1]?).map (fun sg => sg.position) = some prev.position := by
      intro j prev hj hprev
      rw [hshift j _ prev (List.getElem?_eq_getElem hj) hprev]
      rfl
    have hlen1 : s1.segments.length = rest.length + 1 := by simpa using hlen
    cases b with
    | false =>
      refine ⟨s1, ?_, hd, hsp, ?_, ?_, h0a, hsh⟩
      · simp only [tick, h1, he]
        rfl
      · simp only [List.length_cons]; omega
      · simp only [List.length_cons]; omega
    | true =>
      refine ⟨{ s1 with segments := s1.segments ++ [⟨tail.position, ⟨35, 35⟩⟩],
                        points := s1.points + 1 }, ?_, hd, hsp, ?_, ?_, ?_, ?_⟩
      · simp only [tick, h1, he]
        rfl
      · simp only [List.length_append, List.length_cons, List.length_nil]; omega
      · simp only [List.length_append, List.length_cons, List.length_nil]; omega
      · intro seg0a hseg0a
        simp only
        rw [hkeep 0 (by omega)]
        exact h0a seg0a hseg0a
      · intro j prev hj hprev
        simp only
        rw [hkeep (j + 1) (by omega)]
        exact hsh j prev hj hprev

/-- While the snake is alive before each of the first `N` ticks, every state up to tick
`N` exists, has a segment and has the direction and speed of the start. -/
theorem snakeAfter_total (s : Snake) (ctx : Nat → Food × Gen) (hne : s.segments ≠ []) :
    ∀ N : Nat, (∀ k, k < N → ∃ sk, snakeAfter s ctx k = some sk ∧ sk.isAlive = true) →
      ∃ sN, snakeAfter s ctx N = some sN ∧ sN.segments ≠ [] ∧
        sN.direction = s.direction ∧ sN.speed = s.speed := by
  intro N
  induction N with
  | zero => intro _; exact ⟨s, rfl, hne, rfl, rfl⟩
  | succ N ih =>
    intro hal
    obtain ⟨sN, hN, hneN, hdN, hspN⟩ := ih (fun k hk => hal k (by omega))
    obtain ⟨sk, hk, hkal⟩ := hal N (Nat.lt_succ_self N)
    rw [hN] at hk
    have hsame : sk = sN := (Option.some.inj hk).symm
    subst hsame
    obtain ⟨s1, h1, hd1, hsp1, hle, _, _, _⟩ := tick_spec sk (ctx N).1 (ctx N).2 hkal hneN
    refine ⟨s1, by simp only [snakeAfter, hN, h1], ?_, by rw [hd1, hdN], by rw [hsp1, hspN]⟩
    intro h
    rw [h] at hle
    exact hneN (List.length_eq_zero.mp (Nat.le_zero.mp hle))

/-- The history of the head: segment `i` at the end of tick `N` holds the position the head
had at the end of tick `N - i`, for every segment that existed before the `eatFood` of
tick `N`. -/
theorem snakeAfter_history (s : Snake) (ctx : Nat → Food × Gen) (hne : s.segments ≠ []) :
    ∀ N : Nat, (∀ k, k < N → ∃ sk, snakeAfter s ctx k = some sk ∧ sk.isAlive = true) →
      ∀ i sN sNi sPrev, i ≤ N → snakeAfter s ctx N = some sN →
        snakeAfter s ctx (N - i) = some sNi → snakeAfter s ctx (N - 1) = some sPrev →
        i < sPrev.segments.length →
        (sN.segments[i]?).map (fun sg => sg.position)
          = (sNi.segments[0]?).map (fun sg => sg.position) := by
  intro N
  induction N with
  | zero =>
    intro _ i sN sNi sPrev hi hN hNi _ _
    have hi0 : i = 0 := by omega
    subst hi0
    rw [hN] at hNi
    rw [Option.some.inj hNi]
  | succ N ih =>
    intro hal i sN1 sNi sPrev hi hN1 hNi hPrev hlt
    have halN : ∀ k, k < N → ∃ sk, snakeAfter s ctx k = some sk ∧ sk.isAlive = true :=
      fun k hk => hal k (by omega)
    cases i with
    | zero =>
      simp only [Nat.sub_zero] at hNi
      rw [hN1] at hNi
      rw [Option.some.inj hNi]
    | succ j =>
      have hPrev1 : snakeAfter s ctx N = some sPrev := hPrev
      obtain ⟨sk, hk, hkal⟩ := hal N (Nat.lt_succ_self N)
      rw [hPrev1] at hk
      have hsame : sk = sPrev := (Option.some.inj hk).symm
      subst hsame
      obtain ⟨sP, hP, hnePrev, _, _⟩ := snakeAfter_total s ctx hne N halN
      have hnePrev2 : sk.segments ≠ [] := by
        rw [hPrev1] at hP
        rw [Option.some.inj hP]
        exact hnePrev
      obtain ⟨s1, h1, _, _, _, _, _, hsh⟩ := tick_spec sk (ctx N).1 (ctx N).2 hkal hnePrev2
      have hs1 : sN1 = s1 := by
        simp only [snakeAfter, hPrev1, h1] at hN1
        exact (Option.some.inj hN1).symm
      subst hs1
      have hjlt : j < sk.segments.length := by omega
      rw [hsh j sk.segments[j] hlt (List.getElem?_eq_getElem hjlt)]
      have hNi1 : snakeAfter s ctx (N - j) = some sNi := by
        have : N + 1 - (j + 1) = N - j := by omega
        rw [this] at hNi
        exact hNi
      cases N with
      | zero =>
        have hj0 : j = 0 := by omega
        subst hj0
        rw [hPrev1] at hNi1
        rw [← Option.some.inj hNi1, List.getElem?_eq_getElem hjlt]
        rfl
      | succ M =>
        obtain ⟨sM, hM, hneM, _, _⟩ := snakeAfter_total s ctx hne M (fun k hk => hal k (by omega))
        obtain ⟨sMa, hMa, hMal⟩ := hal M (by omega)
        rw [hM] at hMa
        have hsameM : sMa = sM := (Option.some.inj hMa).symm
        subst hsameM
        obtain ⟨s2, h2, _, _, _, hle2, _, _⟩ := tick_spec sMa (ctx M).1 (ctx M).2 hMal hneM
        have hs2 : sk = s2 := by
          simp only [snakeAfter, hM, h2] at hPrev1
          exact (Option.some.inj hPrev1).symm
        subst hs2
        have := ih halN j sk sNi sMa (by omega) hPrev hNi1 hM (by omega)
        rw [← this, List.getElem?_eq_getElem hjlt]
        rfl

/-! ## Auxiliary facts about the states reached from the constructed snake -/

/-- The constructed snake satisfies `SnakeInv`. -/
theorem init_inv : SnakeInv Snake.init := by
  refine ⟨by decide, by decide, rfl, by decide, by decide, ?_⟩
  intro _
  decide

/-- The method `updateSnakeInput` keeps the direction cardinal. -/
theorem updateSnakeInput_cardinal (s : Snake) (sym : Int) (hd : isCardinal s.direction) :
    isCardinal (s.updateSnakeInput sym).direction := by
  simp only [Snake.updateSnakeInput]
  split_ifs
  · exact hd
  · left; rfl
  · right; left; rfl
  · right; right; left; rfl
  · right; right; right; rfl
  · exact hd

/-- The method `updateSnakeInput` keeps `SnakeInv`. -/
theorem updateSnakeInput_inv (s : Snake) (sym : Int) (h : SnakeInv s) :
    SnakeInv (s.updateSnakeInput sym) := by
  obtain ⟨h1, h2, h3, h4, h5, h6⟩ := h
  obtain ⟨f1, f2, f3, f4⟩ := updateSnakeInput_fields s sym
  unfold SnakeInv
  rw [f1, f2, f3, f4]
  exact ⟨h1, updateSnakeInput_cardinal s sym h2, h3, h4, h5, h6⟩

/-- The method `updateSnake` returns on every state satisfying `SnakeInv` and keeps it. -/
theorem updateSnake_inv (s : Snake) (h : SnakeInv s) :
    ∃ s1, s.updateSnake = some s1 ∧ SnakeInv s1 := by
  obtain ⟨h1, h2, h3, h4, h5, h6⟩ := h
  cases halive : s.isAlive with
  | false => exact ⟨s, updateSnake_dead s halive, h1, h2, h3, h4, h5, h6⟩
  | true =>
    cases hsegs : s.segments with
    | nil => exact absurd hsegs h1
    | cons seg0 rest =>
      obtain ⟨s1, hs1, hd, hsp, hpt, hlen, h0, hshift, hiff⟩ :=
        updateSnake_spec s halive seg0 rest hsegs
      have hsz := updateSnake_sizes s s1 hs1
      have hseg0 : seg0.size = ⟨35, 35⟩ := h5 seg0 (by rw [hsegs]; simp)
      refine ⟨s1, hs1, ?_, by rw [hd]; exact h2, by rw [hsp]; exact h3, ?_, ?_, ?_⟩
      · intro hnil
        rw [hnil, hsegs] at hlen
        simp at hlen
      · rw [hpt, hlen]; exact h4
      · intro sg hsg
        have hmem : sg.size ∈ s1.segments.map (fun x => x.size) :=
          List.mem_map.mpr ⟨sg, hsg, rfl⟩
        rw [hsz] at hmem
        obtain ⟨sg0, hsg0, heq⟩ := List.mem_map.mp hmem
        rw [← heq]
        exact h5 sg0 hsg0
      · intro hal1 sg hsg
        obtain ⟨n, hn⟩ := List.mem_iff_getElem?.mp hsg
        cases n with
        | zero =>
          rw [h0] at hn
          have hsgeq := (Option.some.inj hn).symm
          have hnot : ¬ (s1.isAlive = false) := by rw [hal1]; decide
          rw [hiff, hseg0] at hnot
          simp only [SCREEN_WIDTH, SCREEN_HEIGHT, not_or, not_lt, gt_iff_lt] at hnot
          obtain ⟨_, a, b, c, d⟩ := hnot
          rw [hsgeq]
          simp only
          refine ⟨a, ?_, c, ?_⟩ <;> omega
        | succ j =>
          have hjlt : j + 1 < s.segments.length := by
            have := (List.getElem?_eq_some.mp hn).1
            omega
          have hj : j < s.segments.length := by omega
          have := hshift j s.segments[j + 1] s.segments[j]
            (List.getElem?_eq_getElem hjlt) (List.getElem?_eq_getElem hj)
          rw [this] at hn
          rw [← Option.some.inj hn]
          exact h6 halive s.segments[j] (List.getElem_mem _)

/-- The method `eatFood` returns on every state satisfying `SnakeInv` and keeps it. -/
theorem eatFood_inv (s : Snake) (food : Food) (gen : Gen) (h : SnakeInv s) :
    ∃ r, s.eatFood food gen = some r ∧ SnakeInv r.1 := by
  obtain ⟨h1, h2, h3, h4, h5, h6⟩ := h
  obtain ⟨b, tail, _, htail, he⟩ := eatFood_total s food gen h1
  have htmem : tail ∈ s.segments := List.mem_of_getLast?_eq_some htail
  cases b with
  | false => exact ⟨(s, food, gen), by simpa using he, h1, h2, h3, h4, h5, h6⟩
  | true =>
    refine ⟨_, he, ?_⟩
    simp only [if_true]
    refine ⟨by simp, h2, h3, ?_, ?_, ?_⟩
    · simp only [List.length_append, List.length_cons, List.length_nil]
      push_cast
      omega
    · intro sg hsg
      rcases List.mem_append.mp hsg with hm | hm
      · exact h5 sg hm
      · rw [List.mem_singleton.mp hm]
    · intro hal sg hsg
      rcases List.mem_append.mp hsg with hm | hm
      · exact h6 hal sg hm
      · rw [List.mem_singleton.mp hm]
        exact h6 hal tail htmem

/-- The method `reset` leaves a state satisfying `SnakeInv`, whatever the snake was. -/
theorem reset_inv (s : Snake) (food : Food) (gen : Gen) (h : s.speed = 4) :
    SnakeInv (s.reset food gen).1 := by
  refine ⟨by simp [Snake.reset], by right; right; right; rfl, h, by simp [Snake.reset], ?_, ?_⟩
  · intro sg hsg
    simp only [Snake.reset, List.mem_singleton] at hsg
    rw [hsg]
  · intro _ sg hsg
    simp only [Snake.reset, List.mem_singleton] at hsg
    rw [hsg]
    simp [SCREEN_WIDTH, SCREEN_HEIGHT]

/-- Every operation returns on a state satisfying `SnakeInv` and keeps it. -/
theorem apply_inv (op : Op) (s : Snake) (h : SnakeInv s) :
    ∃ s1, op.apply s = some s1 ∧ SnakeInv s1 := by
  cases op with
  | updateSnakeInput sym => exact ⟨_, rfl, updateSnakeInput_inv s sym h⟩
  | updateSnake => exact updateSnake_inv s h
  | eatFood food gen =>
    obtain ⟨r, hr, hinv⟩ := eatFood_inv s food gen h
    exact ⟨r.1, by simp [Op.apply, hr], hinv⟩
  | reset food gen => exact ⟨_, rfl, reset_inv s food gen h.2.2.1⟩

/-- Every sequence of operations returns on a state satisfying `SnakeInv` and keeps it. -/
theorem applyOps_inv (ops : List Op) :
    ∀ s : Snake, SnakeInv s → ∃ s1, applyOps ops s = some s1 ∧ SnakeInv s1 := by
  induction ops with
  | nil => intro s h; exact ⟨s, rfl, h⟩
  | cons op ops ih =>
    intro s h
    obtain ⟨s1, h1, hinv1⟩ := apply_inv op s h
    obtain ⟨s2, h2, hinv2⟩ := ih s1 hinv1
    exact ⟨s2, by simp [applyOps, h1, h2], hinv2⟩

/-! ## Auxiliary facts about runs with key events -/

/-- Key events change neither the segments nor `isAlive`. -/
theorem applyKeys_fields (keys : List Int) :
    ∀ s : Snake, (applyKeys keys s).segments = s.segments ∧
      (applyKeys keys s).isAlive = s.isAlive := by
  induction keys with
  | nil => intro s; exact ⟨rfl, rfl⟩
  | cons k ks ih =>
    intro s
    obtain ⟨a, b⟩ := ih (s.updateSnakeInput k)
    obtain ⟨f1, _, _, f4⟩ := updateSnakeInput_fields s k
    exact ⟨a.trans f1, b.trans f4⟩

/-- One more tick of `playTicks` from a pair satisfying `PairInv` whose snake is alive:
it returns, keeps `PairInv`, and right after `updateSnake` segment `j + 1` lies where
segment `j` was right after the previous `updateSnake`. -/
theorem playTicks_step (s : Snake) (ctx : Nat → List Int × Food × Gen) (n : Nat)
    (r : Snake × Snake) (h : playTicks s ctx n = some r) (hinv : PairInv r)
    (hal : r.2.isAlive = true) :
    ∃ r1, playTicks s ctx (n + 1) = some r1 ∧ PairInv r1 ∧
      r1.1.segments.length ≤ r.1.segments.length + 1 ∧
      (∀ j, j + 1 < r1.1.segments.length →
        (r1.1.segments[j + 1]?).map (fun sg => sg.position)
          = (r.1.segments[j]?).map (fun sg => sg.position)) := by
  obtain ⟨hne, hlen, hsame⟩ := hinv
  obtain ⟨k1, k2⟩ := applyKeys_fields (ctx n).1 r.2
  cases hsegs : r.2.segments with
  | nil => exact absurd hsegs hne
  | cons seg0 rest =>
    obtain ⟨mid, hmid, _, _, _, hmlen, _, hshift, _⟩ :=
      updateSnake_spec (applyKeys (ctx n).1 r.2) (by rw [k2]; exact hal) seg0 rest
        (by rw [k1]; exact hsegs)
    rw [k1] at hmlen hshift
    have hmne : mid.segments ≠ [] := by
      intro hnil
      rw [hnil, hsegs] at hmlen
      simp at hmlen
    obtain ⟨b, tail, _, _, he⟩ := eatFood_total mid (ctx n).2.1 (ctx n).2.2 hmne
    have hstep : ∀ e : Snake × Food × Gen,
        mid.eatFood (ctx n).2.1 (ctx n).2.2 = some e →
        playTicks s ctx (n + 1) = some (mid, e.1) := by
      intro e hee
      simp only [playTicks, h, hmid, hee]
    have hmove : ∀ j, j + 1 < mid.segments.length →
        (mid.segments[j + 1]?).map (fun sg => sg.position)
          = (r.1.segments[j]?).map (fun sg => sg.position) := by
      intro j hj
      have hj1 : j + 1 < r.2.segments.length := by omega
      have hj0 : j < r.2.segments.length := by omega
      rw [hshift j r.2.segments[j + 1] r.2.segments[j]
        (List.getElem?_eq_getElem hj1) (List.getElem?_eq_getElem hj0)]
      rw [← hsame j (by omega), List.getElem?_eq_getElem hj0]
      rfl
    cases b with
    | false =>
      refine ⟨(mid, mid), ?_, ⟨hmne, by simp, fun _ _ => rfl⟩, by simp only; omega, hmove⟩
      have := hstep _ he
      simpa using this
    | true =>
      refine ⟨(mid, { mid with segments := mid.segments ++ [⟨tail.position, ⟨35, 35⟩⟩],
                                points := mid.points + 1 }), ?_, ⟨by simp, by simp, ?_⟩,
        by simp only; omega, hmove⟩
      · have := hstep _ he
        simpa using this
      · intro j hj
        exact List.getElem?_append_left hj

/-- While the snake is alive at the end of each of the first `N` ticks, `playTicks` returns
up to tick `N` and its result satisfies `PairInv`. -/
theorem playTicks_total (s : Snake) (ctx : Nat → List Int × Food × Gen)
    (hne : s.segments ≠ []) :
    ∀ N : Nat, (∀ k, k < N → ∃ r, playTicks s ctx k = some r ∧ r.2.isAlive = true) →
      ∃ rN, playTicks s ctx N = some rN ∧ PairInv rN := by
  intro N
  induction N with
  | zero => intro _; exact ⟨(s, s), rfl, hne, by simp, fun _ _ => rfl⟩
  | succ N ih =>
    intro hal
    obtain ⟨rN, hN, hinv⟩ := ih (fun k hk => hal k (by omega))
    obtain ⟨rk, hk, hkal⟩ := hal N (Nat.lt_succ_self N)
    rw [hN] at hk
    rw [← Option.some.inj hk] at hkal
    obtain ⟨r1, h1, hinv1, _⟩ := playTicks_step s ctx N rN hN hinv hkal
    exact ⟨r1, h1, hinv1⟩

/-- The history of the head right after `updateSnake`: segment `i` after the `updateSnake`
of tick `N` lies where the head was after the `updateSnake` of tick `N - i`. -/
theorem playTicks_history (s : Snake) (ctx : Nat → List Int × Food × Gen)
    (hne : s.segments ≠ []) :
    ∀ N : Nat, (∀ k, k < N → ∃ r, playTicks s ctx k = some r ∧ r.2.isAlive = true) →
      ∀ i rN rNi, i ≤ N → playTicks s ctx N = some rN →
        playTicks s ctx (N - i) = some rNi → i < rN.1.segments.length →
        (rN.1.segments[i]?).map (fun sg => sg.position)
          = (rNi.1.segments[0]?).map (fun sg => sg.position) := by
  intro N
  induction N with
  | zero =>
    intro _ i rN rNi hi hN hNi _
    have hi0 : i = 0 := by omega
    subst hi0
    rw [hN] at hNi
    rw [Option.some.inj hNi]
  | succ N ih =>
    intro hal i rN1 rNi hi hN1 hNi hlt
    have halN : ∀ k, k < N → ∃ r, playTicks s ctx k = some r ∧ r.2.isAlive = true :=
      fun k hk => hal k (by omega)
    cases i with
    | zero =>
      simp only [Nat.sub_zero] at hNi
      rw [hN1] at hNi
      rw [Option.some.inj hNi]
    | succ j =>
      obtain ⟨rN, hN, hinv⟩ := playTicks_total s ctx hne N halN
      obtain ⟨rk, hk, hkal⟩ := hal N (Nat.lt_succ_self N)
      rw [hN] at hk
      rw [← Option.some.inj hk] at hkal
      obtain ⟨r1, h1, _, hlen1, hmove⟩ := playTicks_step s ctx N rN hN hinv hkal
      rw [hN1] at h1
      have hr1 : rN1 = r1 := Option.some.inj h1
      subst hr1
      rw [hmove j hlt]
      have hNi1 : playTicks s ctx (N - j) = some rNi := by
        have : N + 1 - (j + 1) = N - j := by omega
        rw [this] at hNi
        exact hNi
      exact ih halN j rN rNi (by omega) hN hNi1 (by omega)

/-! ## Auxiliary facts about a reversal inside one frame -/

/-- A living snake whose segment 1 lies exactly one step ahead of the head runs into it:
`updateSnake` puts the head on that position and clears `isAlive`. -/
theorem updateSnake_onto_segment1 (s : Snake) (seg0 seg1 : Segment) (rest : List Segment)
    (halive : s.isAlive = true) (hsegs : s.segments = seg0 :: seg1 :: rest)
    (hpos : seg1.position = advance seg0.position s.direction s.speed) :
    ∃ s3 head, s.updateSnake = some s3 ∧ s3.segments[0]? = some head ∧
      head.position = seg1.position ∧ s3.isAlive = false := by
  obtain ⟨s3, h3, _, _, _, _, h0, _, hiff⟩ :=
    updateSnake_spec s halive seg0 (seg1 :: rest) hsegs
  refine ⟨s3, _, h3, h0, hpos.symm, ?_⟩
  rw [hiff]
  left
  exact ⟨1, seg1, le_refl 1, by rw [hsegs]; simp, hpos⟩

/-- For a key that is neither `q` nor the space bar, `input` only calls
`updateSnakeInput`. -/
theorem keyDown_other_key (sym : Int) (g : Game) (hq : sym ≠ SDLK_q)
    (hsp : sym ≠ SDLK_SPACE) :
    keyDown sym g = { g with snake := g.snake.updateSnakeInput sym } := by
  simp [keyDown, hq, hsp]

/-- Two keys, neither `q` nor the space bar, that leave a living snake heading into its own
segment 1: `input` hands both to `updateSnakeInput`, and the next `updateSnake` kills. -/
theorem reversal_kills (s : Snake) (seg0 seg1 : Segment) (rest : List Segment) (k1 k2 : Int)
    (halive : s.isAlive = true) (hsegs : s.segments = seg0 :: seg1 :: rest)
    (hbehind : seg1.position = ⟨seg0.position.x - s.speed * s.direction.x,
                                seg0.position.y - s.speed * s.direction.y⟩)
    (hq1 : k1 ≠ SDLK_q) (hsp1 : k1 ≠ SDLK_SPACE) (hq2 : k2 ≠ SDLK_q) (hsp2 : k2 ≠ SDLK_SPACE)
    (hdir : ((s.updateSnakeInput k1).updateSnakeInput k2).direction
      = ⟨-s.direction.x, -s.direction.y⟩) :
    (∀ g : Game, g.snake = s →
      (input [Event.keyDown k1, Event.keyDown k2] g).snake
        = (s.updateSnakeInput k1).updateSnakeInput k2) ∧
    ∃ s3 head, ((s.updateSnakeInput k1).updateSnakeInput k2).updateSnake = some s3 ∧
      s3.segments[0]? = some head ∧ head.position = seg1.position ∧ s3.isAlive = false := by
  constructor
  · intro g hg
    simp only [input, List.foldl, inputEvent]
    rw [keyDown_other_key k2 _ hq2 hsp2, keyDown_other_key k1 g hq1 hsp1, hg]
  · obtain ⟨a1, a2, _, a4⟩ := updateSnakeInput_fields s k1
    obtain ⟨b1, b2, _, b4⟩ := updateSnakeInput_fields (s.updateSnakeInput k1) k2
    apply updateSnake_onto_segment1 _ seg0 seg1 rest
    · rw [b4, a4]; exact halive
    · rw [b1, a1]; exact hsegs
    · rw [hdir, b2, a2, hbehind]
      simp only [advance, Position.mk.injEq]
      constructor <;> ring

/-- The method `eatFood` never writes `isAlive`. -/
theorem eatFood_isAlive (s : Snake) (food : Food) (gen : Gen) (r : Snake × Food × Gen)
    (h : s.eatFood food gen = some r) : r.1.isAlive = s.isAlive := by
  unfold Snake.eatFood at h
  cases hc : s.isColliding food with
  | none => simp [hc] at h
  | some b =>
    cases b with
    | false =>
      simp only [hc, Option.some.injEq] at h
      rw [← h]
    | true =>
      cases hl : s.segments.getLast? with
      | none => simp [hc, hl] at h
      | some tail =>
        simp only [hc, hl, Option.some.injEq] at h
        rw [← h]

/-! ## Auxiliary facts about 32-bit arithmetic -/

/-- A result that is a 32-bit value is the value the 32-bit operation leaves. -/
theorem wrap32_of_inInt32 (z : Int) (h : inInt32 z) : wrap32 z = z := by
  unfold inInt32 at h
  unfold wrap32
  omega

/-! ## The claims -/

/-- C1: for a living snake with at least one segment, all of size 35x35, `updateSnake`
returns a snake that is not alive if and only if its new head position equals the position
held before the call by a segment of index at least 1, or the new head `x` is outside
`[0, 765]`, or the new head `y` is outside `[0, 565]`; a head ending at `x = 766` is dead. -/
theorem updateSnake_liveness (s : Snake) (halive : s.isAlive = true)
    (hne : s.segments ≠ []) (hsize : ∀ sg ∈ s.segments, sg.size = ⟨35, 35⟩) :
    ∃ s1 head, s.updateSnake = some s1 ∧ s1.segments[0]? = some head ∧
      (s1.isAlive = false ↔
        (∃ i sg, 1 ≤ i ∧ s.segments[i]? = some sg ∧ head.position = sg.position) ∨
        ¬ (0 ≤ head.position.x ∧ head.position.x ≤ 765) ∨
        ¬ (0 ≤ head.position.y ∧ head.position.y ≤ 565)) ∧
      (head.position.x = 766 → s1.isAlive = false) := by
  cases hsegs : s.segments with
  | nil => exact absurd hsegs hne
  | cons seg0 rest =>
    obtain ⟨s1, h1, _, _, _, _, h0, _, hiff⟩ := updateSnake_spec s halive seg0 rest hsegs
    have hs0 : seg0.size = ⟨35, 35⟩ := hsize seg0 (by rw [hsegs]; simp)
    have hiff2 : s1.isAlive = false ↔
        (∃ i sg, 1 ≤ i ∧ (seg0 :: rest)[i]? = some sg ∧
          (advance seg0.position s.direction s.speed) = sg.position) ∨
        ¬ (0 ≤ (advance seg0.position s.direction s.speed).x ∧
            (advance seg0.position s.direction s.speed).x ≤ 765) ∨
        ¬ (0 ≤ (advance seg0.position s.direction s.speed).y ∧
            (advance seg0.position s.direction s.speed).y ≤ 565) := by
      rw [hiff, hs0, hsegs]
      simp only [SCREEN_WIDTH, SCREEN_HEIGHT]
      constructor
      · rintro (⟨i, sg, a, b, c⟩ | h | h | h | h)
        · exact Or.inl ⟨i, sg, a, b, c.symm⟩
        · right; left; omega
        · right; left; omega
        · right; right; omega
        · right; right; omega
      · rintro (⟨i, sg, a, b, c⟩ | h | h)
        · exact Or.inl ⟨i, sg, a, b, c.symm⟩
        · by_cases hx : (advance seg0.position s.direction s.speed).x < 0
          · exact Or.inr (Or.inl hx)
          · right; right; left; omega
        · by_cases hy : (advance seg0.position s.direction s.speed).y < 0
          · exact Or.inr (Or.inr (Or.inr (Or.inl hy)))
          · right; right; right; right; omega
    refine ⟨s1, _, h1, h0, hiff2, ?_⟩
    intro hx
    rw [hiff2]
    right; left
    simp only at hx
    omega

/-- C1, at a head that moves from `x = 762` to `x = 766`. -/
theorem updateSnake_liveness_witness :
    snakeAt762.isAlive = true ∧ snakeAt762.segments ≠ [] ∧
    (∀ sg ∈ snakeAt762.segments, sg.size = ⟨35, 35⟩) ∧
    ∃ s1 head, snakeAt762.updateSnake = some s1 ∧ s1.segments[0]? = some head ∧
      (s1.isAlive = false ↔
        (∃ i sg, 1 ≤ i ∧ snakeAt762.segments[i]? = some sg ∧ head.position = sg.position) ∨
        ¬ (0 ≤ head.position.x ∧ head.position.x ≤ 765) ∨
        ¬ (0 ≤ head.position.y ∧ head.position.y ≤ 565)) ∧
      (head.position.x = 766 → s1.isAlive = false) :=
  ⟨rfl, by decide, by decide,
    updateSnake_liveness snakeAt762 rfl (by decide) (by decide)⟩

/-- C2: on a living snake with at least one segment, while the product `direction * speed`
and the sum `position + direction * speed` of the head stay 32-bit values, `updateSnake`
moves the head by `direction * speed` (the value the 32-bit arithmetic of the code
computes), gives every segment `i ≥ 1` the position segment `i - 1` had before the call,
and keeps the number of segments, their sizes, the direction, the speed and the score; a
one-segment snake dies exactly when its head leaves the bounds; from head `(400, 300)`,
direction `(1, 0)` and speed 4 the head arrives at `(404, 300)`. -/
theorem updateSnake_moves (s : Snake) (seg0 : Segment) (rest : List Segment)
    (halive : s.isAlive = true) (hsegs : s.segments = seg0 :: rest)
    (hmx : inInt32 (s.direction.x * s.speed))
    (hx : inInt32 (seg0.position.x + s.direction.x * s.speed))
    (hmy : inInt32 (s.direction.y * s.speed))
    (hy : inInt32 (seg0.position.y + s.direction.y * s.speed)) :
    (∃ s1 head, s.updateSnake = some s1 ∧ s1.segments[0]? = some head ∧
      head.position = ⟨seg0.position.x + s.direction.x * s.speed,
                       seg0.position.y + s.direction.y * s.speed⟩ ∧
      head.position = ⟨wrap32 (seg0.position.x + wrap32 (s.direction.x * s.speed)),
                       wrap32 (seg0.position.y + wrap32 (s.direction.y * s.speed))⟩ ∧
      (rest = [] → inInt32 (SCREEN_WIDTH - seg0.size.width) →
        inInt32 (SCREEN_HEIGHT - seg0.size.height) →
        (s1.isAlive = false ↔
          head.position.x < 0 ∨ head.position.x > SCREEN_WIDTH - head.size.width ∨
          head.position.y < 0 ∨ head.position.y > SCREEN_HEIGHT - head.size.height)) ∧
      (∀ i prev, 1 ≤ i → i < s.segments.length → s.segments[i - 1]? = some prev →
        ∃ sg, s1.segments[i]? = some sg ∧ sg.position = prev.position) ∧
      s1.segments.length = s.segments.length ∧
      s1.segments.map (fun sg => sg.size) = s.segments.map (fun sg => sg.size) ∧
      s1.direction = s.direction ∧ s1.speed = s.speed ∧ s1.points = s.points) ∧
    (snakeAtCentre.updateSnake).map
      (fun s1 => (s1.segments.map (fun sg => sg.position), s1.isAlive))
      = some ([⟨404, 300⟩], true) := by
  refine ⟨?_, by decide⟩
  obtain ⟨s1, h1, hd, hsp, hpt, hlen, h0, hshift, hiff⟩ :=
    updateSnake_spec s halive seg0 rest hsegs
  have hsz := updateSnake_sizes s s1 h1
  refine ⟨s1, _, h1, h0, rfl, ?_, ?_, ?_, hlen, hsz, hd, hsp, hpt⟩
  · simp only [advance, Position.mk.injEq]
    rw [wrap32_of_inInt32 _ hmx, wrap32_of_inInt32 _ hmy, wrap32_of_inInt32 _ hx,
      wrap32_of_inInt32 _ hy]
    exact ⟨rfl, rfl⟩
  · intro hrest _ _
    rw [hiff]
    subst hrest
    constructor
    · rintro (⟨i, sg, hi, hsg, _⟩ | h)
      · rw [hsegs] at hsg
        cases i with
        | zero => omega
        | succ i => simp at hsg
      · exact h
    · intro h
      exact Or.inr h
  · intro i prev hi hilt hprev
    obtain ⟨j, rfl⟩ : ∃ j, i = j + 1 := ⟨i - 1, by omega⟩
    have hsg : s.segments[j + 1]? = some (s.segments[j + 1]) :=
      List.getElem?_eq_getElem hilt
    exact ⟨_, hshift j _ prev hsg (by simpa using hprev), rfl⟩

/-- C2, on a living three-segment snake that turns up: the head moves from `(400, 300)` to
`(400, 296)` and the two other segments take the places `(400, 300)` and `(396, 300)`. -/
theorem updateSnake_moves_witness :
    (snakeOfThree.isAlive = true ∧
     snakeOfThree.segments = snakeOfThreeHead :: snakeOfThreeBody ∧
     inInt32 (snakeOfThree.direction.x * snakeOfThree.speed) ∧
     inInt32 (snakeOfThreeHead.position.x + snakeOfThree.direction.x * snakeOfThree.speed) ∧
     inInt32 (snakeOfThree.direction.y * snakeOfThree.speed) ∧
     inInt32 (snakeOfThreeHead.position.y + snakeOfThree.direction.y * snakeOfThree.speed)) ∧
    (snakeOfThree.updateSnake).map
      (fun s1 => (s1.segments.map (fun sg => sg.position), s1.isAlive))
      = some ([⟨400, 296⟩, ⟨400, 300⟩, ⟨396, 300⟩], true) ∧
    (∃ s1 head, snakeOfThree.updateSnake = some s1 ∧ s1.segments[0]? = some head ∧
      head.position = ⟨snakeOfThreeHead.position.x + snakeOfThree.direction.x * snakeOfThree.speed,
                       snakeOfThreeHead.position.y + snakeOfThree.direction.y * snakeOfThree.speed⟩ ∧
      head.position = ⟨wrap32 (snakeOfThreeHead.position.x + wrap32 (snakeOfThree.direction.x * snakeOfThree.speed)),
                       wrap32 (snakeOfThreeHead.position.y + wrap32 (snakeOfThree.direction.y * snakeOfThree.speed))⟩ ∧
      (snakeOfThreeBody = [] → inInt32 (SCREEN_WIDTH - snakeOfThreeHead.size.width) →
        inInt32 (SCREEN_HEIGHT - snakeOfThreeHead.size.height) →
        (s1.isAlive = false ↔
          head.position.x < 0 ∨ head.position.x > SCREEN_WIDTH - head.size.width ∨
          head.position.y < 0 ∨ head.position.y > SCREEN_HEIGHT - head.size.height)) ∧
      (∀ i prev, 1 ≤ i → i < snakeOfThree.segments.length → snakeOfThree.segments[i - 1]? = some prev →
        ∃ sg, s1.segments[i]? = some sg ∧ sg.position = prev.position) ∧
      s1.segments.length = snakeOfThree.segments.length ∧
      s1.segments.map (fun sg => sg.size) = snakeOfThree.segments.map (fun sg => sg.size) ∧
      s1.direction = snakeOfThree.direction ∧ s1.speed = snakeOfThree.speed ∧ s1.points = snakeOfThree.points) ∧
    (snakeAtCentre.updateSnake).map
      (fun s1 => (s1.segments.map (fun sg => sg.position), s1.isAlive))
      = some ([⟨404, 300⟩], true) :=
  ⟨⟨rfl, rfl, by decide, by decide, by decide, by decide⟩, by decide,
    updateSnake_moves snakeOfThree snakeOfThreeHead snakeOfThreeBody rfl rfl
      (by decide) (by decide) (by decide) (by decide)⟩

/-- C4: with a 35x35 head at `(hx, hy)` and a 35x35 food at `(fx, fy)`, all four sums
`hx + 35`, `hy + 35`, `fx + 35`, `fy + 35` being 32-bit values, `isColliding` is true if and
only if `[hx, hx + 35]` meets `[fx, fx + 35]` and `[hy, hy + 35]` meets `[fy, fy + 35]`,
that is if and only if `|hx - fx| ≤ 35` and `|hy - fy| ≤ 35`, and it is the test the code
evaluates on its 32-bit sums; with the food at `(0, 0)` a head at `(0, 0)` collides and a
head at `(36, 36)` does not. -/
theorem isColliding_iff (s : Snake) (rest : List Segment) (hx hy fx fy : Int)
    (hhx : inInt32 (hx + 35)) (hhy : inInt32 (hy + 35))
    (hfx : inInt32 (fx + 35)) (hfy : inInt32 (fy + 35)) :
    (∃ b, Snake.isColliding { s with segments := ⟨⟨hx, hy⟩, ⟨35, 35⟩⟩ :: rest }
          { size := ⟨35, 35⟩, position := ⟨fx, fy⟩ } = some b ∧
      (b = true ↔ |hx - fx| ≤ 35 ∧ |hy - fy| ≤ 35) ∧
      (b = true ↔
        (∃ x, hx ≤ x ∧ x ≤ hx + 35 ∧ fx ≤ x ∧ x ≤ fx + 35) ∧
        (∃ y, hy ≤ y ∧ y ≤ hy + 35 ∧ fy ≤ y ∧ y ≤ fy + 35)) ∧
      (b = true ↔
        wrap32 (hx + 35) ≥ fx ∧ hx ≤ wrap32 (fx + 35) ∧
        wrap32 (hy + 35) ≥ fy ∧ hy ≤ wrap32 (fy + 35))) ∧
    Snake.isColliding { segments := [⟨⟨0, 0⟩, ⟨35, 35⟩⟩] }
      { size := ⟨35, 35⟩, position := ⟨0, 0⟩ } = some true ∧
    Snake.isColliding { segments := [⟨⟨36, 36⟩, ⟨35, 35⟩⟩] }
      { size := ⟨35, 35⟩, position := ⟨0, 0⟩ } = some false := by
  refine ⟨?_, by decide, by decide⟩
  refine ⟨decide (hx + 35 ≥ fx) && decide (hx ≤ fx + 35) && decide (hy + 35 ≥ fy) &&
    decide (hy ≤ fy + 35), by simp [Snake.isColliding], ?_, ?_, ?_⟩
  · simp only [Bool.and_eq_true, decide_eq_true_eq, ge_iff_le, abs_le]
    constructor
    · rintro ⟨⟨⟨a, b⟩, c⟩, d⟩
      constructor <;> constructor <;> omega
    · rintro ⟨⟨a, b⟩, c, d⟩
      refine ⟨⟨⟨?_, ?_⟩, ?_⟩, ?_⟩ <;> omega
  · simp only [Bool.and_eq_true, decide_eq_true_eq, ge_iff_le]
    constructor
    · rintro ⟨⟨⟨a, b⟩, c⟩, d⟩
      refine ⟨⟨max hx fx, ?_, ?_, ?_, ?_⟩, ⟨max hy fy, ?_, ?_, ?_, ?_⟩⟩ <;> omega
    · rintro ⟨⟨x, a, b, c, d⟩, y, e, f, g, h⟩
      refine ⟨⟨⟨?_, ?_⟩, ?_⟩, ?_⟩ <;> omega
  · rw [wrap32_of_inInt32 _ hhx, wrap32_of_inInt32 _ hhy, wrap32_of_inInt32 _ hfx,
      wrap32_of_inInt32 _ hfy]
    simp only [Bool.and_eq_true, decide_eq_true_eq, ge_iff_le]
    constructor
    · rintro ⟨⟨⟨a, b⟩, c⟩, d⟩
      exact ⟨a, b, c, d⟩
    · rintro ⟨a, b, c, d⟩
      exact ⟨⟨⟨a, b⟩, c⟩, d⟩

/-- C4, at the largest coordinates whose sums are still 32-bit values: the head at
`(2147483612, 2147483612)` touches the food at `(2147483577, 2147483612)` by its edge. -/
theorem isColliding_iff_witness :
    (inInt32 (2147483612 + 35) ∧ inInt32 (2147483612 + 35) ∧
     inInt32 (2147483577 + 35) ∧ inInt32 (2147483612 + 35)) ∧
    Snake.isColliding { snakeAtCentre with
        segments := ⟨⟨2147483612, 2147483612⟩, ⟨35, 35⟩⟩ :: [] }
      { size := ⟨35, 35⟩, position := ⟨2147483577, 2147483612⟩ } = some true ∧
    (∃ b, Snake.isColliding { snakeAtCentre with segments := ⟨⟨(2147483612 : Int), (2147483612 : Int)⟩, ⟨35, 35⟩⟩ :: [] }
          { size := ⟨35, 35⟩, position := ⟨(2147483577 : Int), (2147483612 : Int)⟩ } = some b ∧
      (b = true ↔ |(2147483612 : Int) - (2147483577 : Int)| ≤ 35 ∧ |(2147483612 : Int) - (2147483612 : Int)| ≤ 35) ∧
      (b = true ↔
        (∃ x, (2147483612 : Int) ≤ x ∧ x ≤ (2147483612 : Int) + 35 ∧ (2147483577 : Int) ≤ x ∧ x ≤ (2147483577 : Int) + 35) ∧
        (∃ y, (2147483612 : Int) ≤ y ∧ y ≤ (2147483612 : Int) + 35 ∧ (2147483612 : Int) ≤ y ∧ y ≤ (2147483612 : Int) + 35)) ∧
      (b = true ↔
        wrap32 ((2147483612 : Int) + 35) ≥ (2147483577 : Int) ∧ (2147483612 : Int) ≤ wrap32 ((2147483577 : Int) + 35) ∧
        wrap32 ((2147483612 : Int) + 35) ≥ (2147483612 : Int) ∧ (2147483612 : Int) ≤ wrap32 ((2147483612 : Int) + 35))) ∧
    Snake.isColliding { segments := [⟨⟨0, 0⟩, ⟨35, 35⟩⟩] }
      { size := ⟨35, 35⟩, position := ⟨0, 0⟩ } = some true ∧
    Snake.isColliding { segments := [⟨⟨36, 36⟩, ⟨35, 35⟩⟩] }
      { size := ⟨35, 35⟩, position := ⟨0, 0⟩ } = some false :=
  ⟨⟨by decide, by decide, by decide, by decide⟩, by decide,
    isColliding_iff snakeAtCentre [] 2147483612 2147483612 2147483577 2147483612
      (by decide) (by decide) (by decide) (by decide)⟩

/-- C5: when the direction is one of the four cardinal unit vectors, the direction after
`updateSnakeInput`, whatever the key, is never the exact negation of the direction before. -/
theorem updateSnakeInput_no_reversal (s : Snake) (sym : Int) (hd : isCardinal s.direction) :
    (s.updateSnakeInput sym).direction ≠ ⟨-s.direction.x, -s.direction.y⟩ := by
  obtain ⟨segs, ⟨dx, dy⟩, speed, points, alive⟩ := s
  unfold isCardinal at hd
  simp only [Position.mk.injEq] at hd
  unfold Snake.updateSnakeInput
  rcases hd with ⟨h1, h2⟩ | ⟨h1, h2⟩ | ⟨h1, h2⟩ | ⟨h1, h2⟩ <;> subst h1 <;> subst h2 <;>
    cases alive <;> simp <;> split_ifs <;> simp

/-- C5, for a snake heading right that receives the key `a` (left). -/
theorem updateSnakeInput_no_reversal_witness :
    isCardinal snakeAtCentre.direction ∧
    (snakeAtCentre.updateSnakeInput SDLK_a).direction ≠
      ⟨-snakeAtCentre.direction.x, -snakeAtCentre.direction.y⟩ :=
  ⟨by decide, updateSnakeInput_no_reversal snakeAtCentre SDLK_a (by decide)⟩

/-- C3: for a snake with a head, if `isColliding(food)` is true then `eatFood` appends exactly
one new 35x35 segment at the position of the previous last segment, leaves the existing
segments as they were, adds 1 to the score and resets the food; if it is false, `eatFood`
changes neither the snake nor the food (nor the generator). -/
theorem eatFood_spec (s : Snake) (food : Food) (gen : Gen) (hne : s.segments ≠ []) :
    ∃ b, s.isColliding food = some b ∧
      (b = true → ∃ s1 tail,
        s.eatFood food gen = some (s1, (food.reset gen).1, (food.reset gen).2) ∧
        s.segments.getLast? = some tail ∧
        s1.segments = s.segments ++ [⟨tail.position, ⟨35, 35⟩⟩] ∧
        s1.segments.length = s.segments.length + 1 ∧
        (∀ i, i < s.segments.length → s1.segments[i]? = s.segments[i]?) ∧
        s1.points = s.points + 1 ∧ s1.direction = s.direction ∧ s1.speed = s.speed ∧
        s1.isAlive = s.isAlive) ∧
      (b = false → s.eatFood food gen = some (s, food, gen)) := by
  obtain ⟨b, tail, hb, htail, heat⟩ := eatFood_total s food gen hne
  refine ⟨b, hb, ?_, ?_⟩
  · intro hbt
    subst hbt
    refine ⟨_, tail, heat, htail, rfl, by simp, ?_, rfl, rfl, rfl, rfl⟩
    intro i hi
    simp only [if_true]
    rw [List.getElem?_append_left hi]
  · intro hbf
    subst hbf
    simpa using heat

/-- C3, at a food lying on the head. -/
theorem eatFood_spec_witness :
    snakeAtCentre.segments ≠ [] ∧
    ∃ b, snakeAtCentre.isColliding foodAtCentre = some b ∧
      (b = true → ∃ s1 tail,
        snakeAtCentre.eatFood foodAtCentre zeroGen = some (s1, (foodAtCentre.reset zeroGen).1, (foodAtCentre.reset zeroGen).2) ∧
        snakeAtCentre.segments.getLast? = some tail ∧
        s1.segments = snakeAtCentre.segments ++ [⟨tail.position, ⟨35, 35⟩⟩] ∧
        s1.segments.length = snakeAtCentre.segments.length + 1 ∧
        (∀ i, i < snakeAtCentre.segments.length → s1.segments[i]? = snakeAtCentre.segments[i]?) ∧
        s1.points = snakeAtCentre.points + 1 ∧ s1.direction = snakeAtCentre.direction ∧ s1.speed = snakeAtCentre.speed ∧
        s1.isAlive = snakeAtCentre.isAlive) ∧
      (b = false → snakeAtCentre.eatFood foodAtCentre zeroGen = some (snakeAtCentre, foodAtCentre, zeroGen)) :=
  ⟨by decide, eatFood_spec snakeAtCentre foodAtCentre zeroGen (by decide)⟩

/-- C7: a newly constructed snake has one segment; `updateSnake` and `updateSnakeInput` keep
the number of segments; `eatFood` adds exactly one segment when the inclusive box test
succeeds and none otherwise; along every sequence of operations without `reset` the number
of segments does not decrease. -/
theorem segment_count :
    Snake.init.segments.length = 1 ∧
    (∀ s : Snake, s.segments ≠ [] →
      ∃ s1, s.updateSnake = some s1 ∧ s1.segments.length = s.segments.length) ∧
    (∀ (s : Snake) (sym : Int),
      (s.updateSnakeInput sym).segments.length = s.segments.length) ∧
    (∀ (s : Snake) (food : Food) (gen : Gen), s.segments ≠ [] →
      ∃ b r, s.isColliding food = some b ∧ s.eatFood food gen = some r ∧
        r.1.segments.length = if b then s.segments.length + 1 else s.segments.length) ∧
    (∀ (ops : List Op) (s : Snake), s.segments ≠ [] → (∀ op ∈ ops, op.isReset = false) →
      ∃ s1, applyOps ops s = some s1 ∧ s.segments.length ≤ s1.segments.length) := by
  have hupd : ∀ s : Snake, s.segments ≠ [] →
      ∃ s1, s.updateSnake = some s1 ∧ s1.segments.length = s.segments.length := by
    intro s hne
    obtain ⟨s1, h1, hlen, _⟩ := updateSnake_total s hne
    exact ⟨s1, h1, hlen⟩
  have heat : ∀ (s : Snake) (food : Food) (gen : Gen), s.segments ≠ [] →
      ∃ b r, s.isColliding food = some b ∧ s.eatFood food gen = some r ∧
        r.1.segments.length = if b then s.segments.length + 1 else s.segments.length := by
    intro s food gen hne
    obtain ⟨b, tail, hb, _, he⟩ := eatFood_total s food gen hne
    refine ⟨b, _, hb, he, ?_⟩
    cases b <;> simp
  refine ⟨rfl, hupd, ?_, heat, ?_⟩
  · intro s sym
    rw [(updateSnakeInput_fields s sym).1]
  · intro ops
    induction ops with
    | nil => intro s _ _; exact ⟨s, rfl, le_refl _⟩
    | cons op ops ih =>
      intro s hne hops
      have hop : op.isReset = false := hops op (by simp)
      have hrest : ∀ o ∈ ops, o.isReset = false := fun o ho => hops o (by simp [ho])
      have hstep : ∃ s1, op.apply s = some s1 ∧ s.segments.length ≤ s1.segments.length := by
        cases op with
        | updateSnakeInput sym =>
          exact ⟨_, rfl, by rw [(updateSnakeInput_fields s sym).1]⟩
        | updateSnake =>
          obtain ⟨s1, h1, hlen⟩ := hupd s hne
          exact ⟨s1, h1, by omega⟩
        | eatFood food gen =>
          obtain ⟨b, r, _, hr, hlen⟩ := heat s food gen hne
          refine ⟨r.1, by simp [Op.apply, hr], ?_⟩
          cases b <;> simp at hlen <;> omega
        | reset food gen => simp [Op.isReset] at hop
      obtain ⟨s1, h1, hle⟩ := hstep
      have hne1 : s1.segments ≠ [] := by
        intro h
        have h0 : s.segments.length = 0 := by
          rw [h] at hle
          simpa using hle
        exact hne (List.length_eq_zero.mp h0)
      obtain ⟨s2, h2, hle2⟩ := ih s1 hne1 hrest
      exact ⟨s2, by simp [applyOps, h1, h2], by omega⟩

/-- C7, on a run that steers, moves, eats the food on the head and moves again. -/
theorem segment_count_witness :
    snakeAtCentre.segments ≠ [] ∧
    (∀ op ∈ [Op.updateSnakeInput SDLK_w, Op.updateSnake, Op.eatFood foodAtCentre zeroGen,
        Op.updateSnake], op.isReset = false) ∧
    ∃ s1, applyOps [Op.updateSnakeInput SDLK_w, Op.updateSnake,
        Op.eatFood foodAtCentre zeroGen, Op.updateSnake] snakeAtCentre = some s1 ∧
      snakeAtCentre.segments.length ≤ s1.segments.length :=
  ⟨by decide, by simp [Op.isReset],
    segment_count.2.2.2.2 _ snakeAtCentre (by decide) (by simp [Op.isReset])⟩

/-- C8: whatever the snake, `reset` leaves exactly one 35x35 segment at the screen centre
`(400, 300)`, direction `(1, 0)`, `isAlive = true`, score 0 and the speed it had; it resets
the (35x35) food, whose new position lies in `[0, 765] x [0, 565]`; resetting twice gives
the same snake as resetting once. -/
theorem reset_spec (s : Snake) (food : Food) (gen : Gen) (hf : food.size = ⟨35, 35⟩) :
    (s.reset food gen).1.segments = [⟨⟨400, 300⟩, ⟨35, 35⟩⟩] ∧
    (s.reset food gen).1.direction = ⟨1, 0⟩ ∧
    (s.reset food gen).1.isAlive = true ∧
    (s.reset food gen).1.points = 0 ∧
    (s.reset food gen).1.speed = s.speed ∧
    (s.reset food gen).2 = food.reset gen ∧
    (0 ≤ (s.reset food gen).2.1.position.x ∧ (s.reset food gen).2.1.position.x ≤ 765 ∧
     0 ≤ (s.reset food gen).2.1.position.y ∧ (s.reset food gen).2.1.position.y ≤ 565) ∧
    ((s.reset food gen).1.reset (s.reset food gen).2.1 (s.reset food gen).2.2).1
      = (s.reset food gen).1 := by
  refine ⟨?_, rfl, rfl, rfl, rfl, rfl, Food.reset_range food gen hf, rfl⟩
  simp [Snake.reset, SCREEN_WIDTH, SCREEN_HEIGHT]

/-- C8, on a dead three-segment snake with a score. -/
theorem reset_spec_witness :
    foodAtOrigin.size = ⟨35, 35⟩ ∧
    (deadSnake.reset foodAtOrigin zeroGen).1.segments = [⟨⟨400, 300⟩, ⟨35, 35⟩⟩] ∧
    (deadSnake.reset foodAtOrigin zeroGen).1.direction = ⟨1, 0⟩ ∧
    (deadSnake.reset foodAtOrigin zeroGen).1.isAlive = true ∧
    (deadSnake.reset foodAtOrigin zeroGen).1.points = 0 ∧
    (deadSnake.reset foodAtOrigin zeroGen).1.speed = deadSnake.speed ∧
    (deadSnake.reset foodAtOrigin zeroGen).2 = foodAtOrigin.reset zeroGen ∧
    (0 ≤ (deadSnake.reset foodAtOrigin zeroGen).2.1.position.x ∧
     (deadSnake.reset foodAtOrigin zeroGen).2.1.position.x ≤ 765 ∧
     0 ≤ (deadSnake.reset foodAtOrigin zeroGen).2.1.position.y ∧
     (deadSnake.reset foodAtOrigin zeroGen).2.1.position.y ≤ 565) ∧
    ((deadSnake.reset foodAtOrigin zeroGen).1.reset (deadSnake.reset foodAtOrigin zeroGen).2.1
      (deadSnake.reset foodAtOrigin zeroGen).2.2).1
      = (deadSnake.reset foodAtOrigin zeroGen).1 :=
  ⟨rfl, reset_spec deadSnake foodAtOrigin zeroGen rfl⟩

/-- C9 (the code does otherwise): in every state the main loop reaches from the initial
state the flag `isMainMenu` is still set, so a space-bar key-down resets the snake and the
food but selects `PLAY`, not `MENU`; in particular after a first space bar (screen `PLAY`)
a second space bar leaves the screen at `PLAY`. -/
theorem space_never_returns_to_menu (seed : Gen) (frames : List (List Event)) :
    (∃ g, mainLoop frames (Game.init seed) = some g ∧ g.isMainMenu = true ∧
      (inputEvent g (Event.keyDown SDLK_SPACE)).currentState = ScreenState.PLAY ∧
      (inputEvent g (Event.keyDown SDLK_SPACE)).snake = (g.snake.reset g.food g.gen).1 ∧
      (inputEvent g (Event.keyDown SDLK_SPACE)).food = (g.food.reset g.gen).1) ∧
    (mainLoop threeFrames (Game.init zeroGen)).map
      (fun g => (g.currentState, (inputEvent g (Event.keyDown SDLK_SPACE)).currentState))
      = some (ScreenState.PLAY, ScreenState.PLAY) := by
  refine ⟨?_, by decide⟩
  obtain ⟨g, hg, _, _, hm⟩ := mainLoop_facts frames (Game.init seed)
    (by simp [Game.init, Snake.init]) (by simp [Game.init, Snake.init])
  have hmm : g.isMainMenu = true := hm rfl
  obtain ⟨k1, k2, k3⟩ := keyDown_space g hmm
  exact ⟨g, hg, hmm, k1, k2, k3⟩

/-- C10: from the initial state, after any number of frames of the main loop the screen is
`GAME_OVER` if and only if the snake is not alive; the state switch and `input` never select
`GAME_OVER`, only the liveness check does; a game left alone ends on `GAME_OVER` with a
dead snake. -/
theorem gameOver_iff_dead (seed : Gen) (frames : List (List Event)) :
    (∃ g, mainLoop frames (Game.init seed) = some g ∧
      (g.currentState = ScreenState.GAME_OVER ↔ g.snake.isAlive = false)) ∧
    (∀ (g g1 : Game) (events : List Event), simulate g = some g1 →
      (input events g1).currentState = ScreenState.GAME_OVER →
      g.currentState = ScreenState.GAME_OVER) ∧
    (mainLoop idleFrames (Game.init zeroGen)).map
      (fun g => (g.currentState, g.snake.isAlive)) = some (ScreenState.GAME_OVER, false) := by
  refine ⟨?_, ?_, by decide⟩
  · obtain ⟨g, hg, _, hiff, _⟩ := mainLoop_facts frames (Game.init seed)
      (by simp [Game.init, Snake.init]) (by simp [Game.init, Snake.init])
    exact ⟨g, hg, hiff⟩
  · intro g g1 events hsim hover
    rw [← simulate_state g g1 hsim]
    exact (input_facts events g1).2.2 hover

/-- C6 as stated fails: from the constructed snake (alive, direction never changed), one
tick that eats a food at `(400, 300)` ends with two segments, and segment 1 lies at
`(404, 300)`, on the head, not at `(400, 300)` where the head was after tick 0; the two
segments are not one head step apart. -/
theorem propagation_fails_on_growth :
    ∃ s0 s1 head0 head1 seg1,
      snakeAfter Snake.init centreFoodCtx 0 = some s0 ∧ s0.isAlive = true ∧
      snakeAfter Snake.init centreFoodCtx 1 = some s1 ∧ s1.direction = s0.direction ∧
      1 < s1.segments.length ∧
      s0.segments[0]? = some head0 ∧ s1.segments[0]? = some head1 ∧
      s1.segments[1]? = some seg1 ∧
      head0.position = ⟨400, 300⟩ ∧ seg1.position = ⟨404, 300⟩ ∧
      seg1.position ≠ head0.position ∧
      head1.position ≠ advance seg1.position s0.direction s0.speed :=
  ⟨Snake.init,
   { segments := [⟨⟨404, 300⟩, ⟨35, 35⟩⟩, ⟨⟨404, 300⟩, ⟨35, 35⟩⟩], points := 1 },
   ⟨⟨400, 300⟩, ⟨35, 35⟩⟩, ⟨⟨404, 300⟩, ⟨35, 35⟩⟩, ⟨⟨404, 300⟩, ⟨35, 35⟩⟩,
   by decide, by decide, by decide, by decide, by decide, by decide, by decide, by decide,
   by decide, by decide, by decide, by decide⟩

/-- C6 (amended): in a run of `N` ticks (`updateSnake` then `eatFood`, any foods) from a
snake with a head that is alive before each tick, the direction stays what it was, and for
every `i ≤ N` below the segment count the snake had before the `eatFood` of tick `N`,
segment `i` at the end of tick `N` lies where the head was at the end of tick `N - i`;
two such consecutive segments are exactly one head step (`direction * speed`) apart. -/
theorem propagation_before_growth (s : Snake) (ctx : Nat → Food × Gen) (N : Nat)
    (hne : s.segments ≠ [])
    (hal : ∀ k, k < N → ∃ sk, snakeAfter s ctx k = some sk ∧ sk.isAlive = true) :
    ∃ sN sPrev, snakeAfter s ctx N = some sN ∧
      snakeAfter s ctx (N - 1) = some sPrev ∧ sN.direction = s.direction ∧
      (∀ i, i ≤ N → i < sPrev.segments.length →
        ∃ sNi seg head, snakeAfter s ctx (N - i) = some sNi ∧
          sN.segments[i]? = some seg ∧ sNi.segments[0]? = some head ∧
          seg.position = head.position) ∧
      (∀ i, i + 1 ≤ N → i + 1 < sPrev.segments.length →
        ∃ a b, sN.segments[i]? = some a ∧ sN.segments[i + 1]? = some b ∧
          a.position = advance b.position s.direction s.speed) := by
  have halk : ∀ m, m ≤ N → ∀ k, k < m → ∃ sk, snakeAfter s ctx k = some sk ∧ sk.isAlive = true :=
    fun m hm k hk => hal k (by omega)
  obtain ⟨sN, hN, hneN, hdN, _⟩ := snakeAfter_total s ctx hne N hal
  obtain ⟨sPrev, hPrev, hnePrev, hdPrev, hspPrev⟩ :=
    snakeAfter_total s ctx hne (N - 1) (halk (N - 1) (by omega))
  have hlen : sPrev.segments.length ≤ sN.segments.length := by
    cases N with
    | zero =>
      rw [hN] at hPrev
      rw [Option.some.inj hPrev]
    | succ M =>
      have hPrevM : snakeAfter s ctx M = some sPrev := hPrev
      obtain ⟨sk, hk, hkal⟩ := hal M (Nat.lt_succ_self M)
      rw [hPrevM] at hk
      rw [← Option.some.inj hk] at hkal
      obtain ⟨s1, h1, _, _, hle, _⟩ := tick_spec sPrev (ctx M).1 (ctx M).2 hkal hnePrev
      simp only [snakeAfter, hPrevM, h1] at hN
      rw [← Option.some.inj hN]
      exact hle
  have part1 : ∀ i, i ≤ N → i < sPrev.segments.length →
      ∃ sNi seg head, snakeAfter s ctx (N - i) = some sNi ∧
        sN.segments[i]? = some seg ∧ sNi.segments[0]? = some head ∧
        seg.position = head.position := by
    intro i hi hlt
    obtain ⟨sNi, hNi, hneNi, _, _⟩ := snakeAfter_total s ctx hne (N - i) (halk (N - i) (by omega))
    have hhist := snakeAfter_history s ctx hne N hal i sN sNi sPrev hi hN hNi hPrev hlt
    have hi2 : i < sN.segments.length := by omega
    have h0 : 0 < sNi.segments.length := List.length_pos.mpr hneNi
    refine ⟨sNi, sN.segments[i], sNi.segments[0], hNi, List.getElem?_eq_getElem hi2,
      List.getElem?_eq_getElem h0, ?_⟩
    rw [List.getElem?_eq_getElem hi2, List.getElem?_eq_getElem h0] at hhist
    simpa using hhist
  refine ⟨sN, sPrev, hN, hPrev, hdN, part1, ?_⟩
  intro i hi hlt
  obtain ⟨sA, a, headA, hA, ha, hheadA, hapos⟩ := part1 i (by omega) (by omega)
  obtain ⟨sB, b, headB, hB, hb, hheadB, hbpos⟩ := part1 (i + 1) hi hlt
  refine ⟨a, b, ha, hb, ?_⟩
  obtain ⟨sB2, hB2, hneB, hdB, hspB⟩ :=
    snakeAfter_total s ctx hne (N - (i + 1)) (halk (N - (i + 1)) (by omega))
  rw [hB] at hB2
  have hsameB : sB2 = sB := (Option.some.inj hB2).symm
  subst hsameB
  obtain ⟨sk, hk, hkal⟩ := hal (N - (i + 1)) (by omega)
  rw [hB] at hk
  rw [← Option.some.inj hk] at hkal
  obtain ⟨s1, h1, _, _, _, _, hhead, _⟩ :=
    tick_spec sB2 (ctx (N - (i + 1))).1 (ctx (N - (i + 1))).2 hkal hneB
  have hstep : N - i = (N - (i + 1)) + 1 := by omega
  rw [hstep] at hA
  simp only [snakeAfter, hB, h1] at hA
  have hs1 : s1 = sA := Option.some.inj hA
  subst hs1
  have := hhead headB hheadB
  rw [hheadA] at this
  rw [hapos, hbpos, ← hdB, ← hspB]
  simpa using this

/-- C6 (amended), on two ticks that both eat: the snake grows to three segments. -/
theorem propagation_before_growth_witness :
    snakeAtCentre.segments ≠ [] ∧
    (∀ k, k < 2 → ∃ sk, snakeAfter snakeAtCentre centreFoodCtx k = some sk ∧
      sk.isAlive = true) ∧
    ∃ sN sPrev, snakeAfter snakeAtCentre centreFoodCtx 2 = some sN ∧
      snakeAfter snakeAtCentre centreFoodCtx (2 - 1) = some sPrev ∧ sN.direction = snakeAtCentre.direction ∧
      (∀ i, i ≤ 2 → i < sPrev.segments.length →
        ∃ sNi seg head, snakeAfter snakeAtCentre centreFoodCtx (2 - i) = some sNi ∧
          sN.segments[i]? = some seg ∧ sNi.segments[0]? = some head ∧
          seg.position = head.position) ∧
      (∀ i, i + 1 ≤ 2 → i + 1 < sPrev.segments.length →
        ∃ a b, sN.segments[i]? = some a ∧ sN.segments[i + 1]? = some b ∧
          a.position = advance b.position snakeAtCentre.direction snakeAtCentre.speed) :=
  have hal : ∀ k, k < 2 → ∃ sk, snakeAfter snakeAtCentre centreFoodCtx k = some sk ∧
      sk.isAlive = true := by
    intro k hk
    have hcases : k = 0 ∨ k = 1 := by omega
    rcases hcases with h | h <;> subst h
    · exact ⟨snakeAtCentre, by decide, by decide⟩
    · exact ⟨{ segments := [⟨⟨404, 300⟩, ⟨35, 35⟩⟩, ⟨⟨404, 300⟩, ⟨35, 35⟩⟩], points := 1 },
        by decide, by decide⟩
  ⟨by decide, hal, propagation_before_growth snakeAtCentre centreFoodCtx 2 (by decide) hal⟩

/-- C11: whatever the raw draws, `Food::reset` on the 35x35 food leaves a position with
`0 ≤ x ≤ 765` and `0 ≤ y ≤ 565`, so the food lies inside the 800x600 screen; the same holds
after construction, after an `eatFood` hit and after `Snake::reset`, whose food is the
outcome of `Food::reset` whatever the snake is; every position of that range is drawn for
some raw draws. -/
theorem food_reset_in_screen (food : Food) (gen : Gen) (hf : food.size = ⟨35, 35⟩) :
    (0 ≤ (food.reset gen).1.position.x ∧ (food.reset gen).1.position.x ≤ 765 ∧ 0 ≤ (food.reset gen).1.position.y ∧ (food.reset gen).1.position.y ≤ 565) ∧
    ((food.reset gen).1.position.x + (food.reset gen).1.size.width ≤ SCREEN_WIDTH ∧
     (food.reset gen).1.position.y + (food.reset gen).1.size.height ≤ SCREEN_HEIGHT) ∧
    (0 ≤ (Food.init gen).1.position.x ∧ (Food.init gen).1.position.x ≤ 765 ∧ 0 ≤ (Food.init gen).1.position.y ∧ (Food.init gen).1.position.y ≤ 565) ∧
    (∀ (s : Snake) (r : Snake × Food × Gen), s.isColliding food = some true →
      s.eatFood food gen = some r → r.2.1 = (food.reset gen).1) ∧
    (∀ s : Snake, (s.reset food gen).2.1 = (food.reset gen).1) ∧
    (∀ x y : Int, 0 ≤ x → x ≤ 765 → 0 ≤ y → y ≤ 565 →
      ∃ g : Gen, (food.reset g).1.position = ⟨x, y⟩) := by
  have hr := Food.reset_range food gen hf
  have hsz : (food.reset gen).1.size = ⟨35, 35⟩ := by simp [Food.reset, hf]
  refine ⟨hr, ?_, Food.reset_range {} gen rfl, ?_, fun _ => rfl, ?_⟩
  · obtain ⟨_, a, _, b⟩ := hr
    rw [hsz]
    simp only [SCREEN_WIDTH, SCREEN_HEIGHT]
    constructor <;> omega
  · intro s r hc he
    simp only [Snake.eatFood, hc] at he
    cases hl : s.segments.getLast? with
    | none => simp [hl] at he
    | some tail =>
      simp only [hl, Option.some.injEq] at he
      rw [← he]
  · intro x y hx0 hx1 hy0 hy1
    refine ⟨twoDraws x.toNat y.toNat, ?_⟩
    simp only [Food.reset, uniformInt, twoDraws, hf, SCREEN_WIDTH, SCREEN_HEIGHT]
    have hxn : ((x.toNat : Nat) : Int) = x := Int.toNat_of_nonneg hx0
    have hyn : ((y.toNat : Nat) : Int) = y := Int.toNat_of_nonneg hy0
    simp only [if_true, Nat.add_eq_zero, one_ne_zero, and_false, if_false, hxn, hyn,
      Position.mk.injEq]
    constructor <;> omega

/-- C11, for the food at the origin and the raw draws 1000 and 2000. -/
theorem food_reset_in_screen_witness :
    foodAtOrigin.size = ⟨35, 35⟩ ∧
    (0 ≤ (foodAtOrigin.reset (twoDraws 1000 2000)).1.position.x ∧ (foodAtOrigin.reset (twoDraws 1000 2000)).1.position.x ≤ 765 ∧ 0 ≤ (foodAtOrigin.reset (twoDraws 1000 2000)).1.position.y ∧ (foodAtOrigin.reset (twoDraws 1000 2000)).1.position.y ≤ 565) ∧
    ((foodAtOrigin.reset (twoDraws 1000 2000)).1.position.x + (foodAtOrigin.reset (twoDraws 1000 2000)).1.size.width ≤ SCREEN_WIDTH ∧
     (foodAtOrigin.reset (twoDraws 1000 2000)).1.position.y + (foodAtOrigin.reset (twoDraws 1000 2000)).1.size.height ≤ SCREEN_HEIGHT) ∧
    (0 ≤ (Food.init (twoDraws 1000 2000)).1.position.x ∧ (Food.init (twoDraws 1000 2000)).1.position.x ≤ 765 ∧ 0 ≤ (Food.init (twoDraws 1000 2000)).1.position.y ∧ (Food.init (twoDraws 1000 2000)).1.position.y ≤ 565) ∧
    (∀ (s : Snake) (r : Snake × Food × Gen), s.isColliding foodAtOrigin = some true →
      s.eatFood foodAtOrigin (twoDraws 1000 2000) = some r → r.2.1 = (foodAtOrigin.reset (twoDraws 1000 2000)).1) ∧
    (∀ s : Snake, (s.reset foodAtOrigin (twoDraws 1000 2000)).2.1 = (foodAtOrigin.reset (twoDraws 1000 2000)).1) ∧
    (∀ x y : Int, 0 ≤ x → x ≤ 765 → 0 ≤ y → y ≤ 565 →
      ∃ g : Gen, (foodAtOrigin.reset g).1.position = ⟨x, y⟩) :=
  ⟨rfl, food_reset_in_screen foodAtOrigin (twoDraws 1000 2000) rfl⟩

/-- C12: for a living snake heading in a cardinal direction `d` and a key whose vector is
`v` (`w` up, `s` down, `a` left, `d` right), `updateSnakeInput` sets the direction to `v`
when `v` is not `-d`, keeps `d` when `v = -d`, keeps it for every other key, and changes
neither the segments, nor the speed, nor the score, nor `isAlive`. -/
theorem updateSnakeInput_spec (s : Snake) (sym : Int) (halive : s.isAlive = true)
    (hd : isCardinal s.direction) :
    (∀ v, keyVector sym = some v → v ≠ ⟨-s.direction.x, -s.direction.y⟩ →
      (s.updateSnakeInput sym).direction = v) ∧
    (∀ v, keyVector sym = some v → v = ⟨-s.direction.x, -s.direction.y⟩ →
      (s.updateSnakeInput sym).direction = s.direction) ∧
    (keyVector sym = none → (s.updateSnakeInput sym).direction = s.direction) ∧
    (s.updateSnakeInput sym).segments = s.segments ∧
    (s.updateSnakeInput sym).speed = s.speed ∧
    (s.updateSnakeInput sym).points = s.points ∧
    (s.updateSnakeInput sym).isAlive = s.isAlive := by
  obtain ⟨f1, f2, f3, f4⟩ := updateSnakeInput_fields s sym
  refine ⟨?_, ?_, ?_, f1, f2, f3, f4⟩
  · intro v hv hneg
    obtain ⟨segs, ⟨dx, dy⟩, speed, points, alive⟩ := s
    simp only at halive
    subst halive
    unfold isCardinal at hd
    simp only [Position.mk.injEq] at hd
    simp only [keyVector, SDLK_w, SDLK_s, SDLK_a, SDLK_d] at hv
    simp only [Snake.updateSnakeInput, SDLK_w, SDLK_s, SDLK_a, SDLK_d]
    rcases hd with ⟨h1, h2⟩ | ⟨h1, h2⟩ | ⟨h1, h2⟩ | ⟨h1, h2⟩ <;> subst h1 <;> subst h2 <;>
      split_ifs at hv <;> simp_all
  · intro v hv hneg
    obtain ⟨segs, ⟨dx, dy⟩, speed, points, alive⟩ := s
    simp only at halive
    subst halive
    unfold isCardinal at hd
    simp only [Position.mk.injEq] at hd
    simp only [keyVector, SDLK_w, SDLK_s, SDLK_a, SDLK_d] at hv
    simp only [Snake.updateSnakeInput, SDLK_w, SDLK_s, SDLK_a, SDLK_d]
    rcases hd with ⟨h1, h2⟩ | ⟨h1, h2⟩ | ⟨h1, h2⟩ | ⟨h1, h2⟩ <;> subst h1 <;> subst h2 <;>
      split_ifs at hv <;> simp_all
  · intro hv
    simp only [keyVector] at hv
    simp only [Snake.updateSnakeInput]
    split_ifs at hv
    simp_all

/-- C12, for the snake heading right and the key `w`. -/
theorem updateSnakeInput_spec_witness :
    snakeAtCentre.isAlive = true ∧ isCardinal snakeAtCentre.direction ∧
    (∀ v, keyVector SDLK_w = some v → v ≠ ⟨-snakeAtCentre.direction.x, -snakeAtCentre.direction.y⟩ →
      (snakeAtCentre.updateSnakeInput SDLK_w).direction = v) ∧
    (∀ v, keyVector SDLK_w = some v → v = ⟨-snakeAtCentre.direction.x, -snakeAtCentre.direction.y⟩ →
      (snakeAtCentre.updateSnakeInput SDLK_w).direction = snakeAtCentre.direction) ∧
    (keyVector SDLK_w = none → (snakeAtCentre.updateSnakeInput SDLK_w).direction = snakeAtCentre.direction) ∧
    (snakeAtCentre.updateSnakeInput SDLK_w).segments = snakeAtCentre.segments ∧
    (snakeAtCentre.updateSnakeInput SDLK_w).speed = snakeAtCentre.speed ∧
    (snakeAtCentre.updateSnakeInput SDLK_w).points = snakeAtCentre.points ∧
    (snakeAtCentre.updateSnakeInput SDLK_w).isAlive = snakeAtCentre.isAlive :=
  ⟨rfl, by decide, updateSnakeInput_spec snakeAtCentre SDLK_w rfl (by decide)⟩

/-- C13: every sequence of `updateSnakeInput`, `updateSnake`, `eatFood` and `reset` from the
constructed snake returns a snake whose direction is one of `(0,-1)`, `(0,1)`, `(-1,0)`,
`(1,0)` and whose speed is 4; so one `updateSnake` of such a snake, when alive, moves the
head by exactly 4 pixels along exactly one axis. -/
theorem direction_cardinal (ops : List Op) :
    ∃ s, applyOps ops Snake.init = some s ∧ isCardinal s.direction ∧ s.speed = 4 ∧
      (s.isAlive = true → ∃ s1 head head1, s.updateSnake = some s1 ∧
        s.segments[0]? = some head ∧ s1.segments[0]? = some head1 ∧
        ((head1.position.x = head.position.x ∧ |head1.position.y - head.position.y| = 4) ∨
         (head1.position.y = head.position.y ∧ |head1.position.x - head.position.x| = 4))) := by
  obtain ⟨s, hs, hne, hd, hsp, _⟩ := applyOps_inv ops Snake.init init_inv
  refine ⟨s, hs, hd, hsp, ?_⟩
  intro halive
  cases hsegs : s.segments with
  | nil => exact absurd hsegs hne
  | cons seg0 rest =>
    obtain ⟨s1, h1, _, _, _, _, h0, _⟩ := updateSnake_spec s halive seg0 rest hsegs
    refine ⟨s1, seg0, _, h1, by simp, h0, ?_⟩
    simp only [advance, hsp]
    unfold isCardinal at hd
    rcases hd with h | h | h | h <;> rw [h] <;> simp

/-- C14: on a snake with `isAlive = false`, `updateSnake` and `updateSnakeInput`, whatever the
key, return the state unchanged in every field, and so does every sequence of these two
operations; no sequence of operations without `reset` makes the snake alive again. -/
theorem dead_snake_frozen (s : Snake) (hdead : s.isAlive = false) :
    s.updateSnake = some s ∧ (∀ sym : Int, s.updateSnakeInput sym = s) ∧
    (∀ ops : List Op,
      (∀ op ∈ ops, op = Op.updateSnake ∨ ∃ sym, op = Op.updateSnakeInput sym) →
      applyOps ops s = some s) ∧
    (∀ (ops : List Op) (s1 : Snake), (∀ op ∈ ops, op.isReset = false) →
      applyOps ops s = some s1 → s1.isAlive = false) := by
  have hin : ∀ t : Snake, t.isAlive = false → ∀ sym : Int, t.updateSnakeInput sym = t := by
    intro t ht sym
    simp [Snake.updateSnakeInput, ht]
  refine ⟨updateSnake_dead s hdead, hin s hdead, ?_, ?_⟩
  · intro ops
    induction ops with
    | nil => intro _; rfl
    | cons op ops ih =>
      intro hops
      have hrest := ih (fun o ho => hops o (List.mem_cons_of_mem _ ho))
      rcases hops op (List.mem_cons_self _ _) with h | ⟨sym, h⟩
      · subst h
        simp only [applyOps, Op.apply, updateSnake_dead s hdead]
        exact hrest
      · subst h
        simp only [applyOps, Op.apply, hin s hdead sym]
        exact hrest
  · have aux : ∀ (ops : List Op) (t s1 : Snake), t.isAlive = false →
        (∀ op ∈ ops, op.isReset = false) → applyOps ops t = some s1 → s1.isAlive = false := by
      intro ops
      induction ops with
      | nil =>
        intro t s1 ht _ h
        simp only [applyOps, Option.some.injEq] at h
        rw [← h]
        exact ht
      | cons op ops ih =>
        intro t s1 ht hops h
        have hrest : ∀ o ∈ ops, o.isReset = false :=
          fun o ho => hops o (List.mem_cons_of_mem _ ho)
        have hop : op.isReset = false := hops op (List.mem_cons_self _ _)
        cases hstep : op.apply t with
        | none => simp [applyOps, hstep] at h
        | some t1 =>
          simp only [applyOps, hstep] at h
          have ht1 : t1.isAlive = false := by
            cases op with
            | updateSnakeInput sym =>
              simp only [Op.apply, Option.some.injEq] at hstep
              rw [← hstep, hin t ht sym]
              exact ht
            | updateSnake =>
              simp only [Op.apply, updateSnake_dead t ht, Option.some.injEq] at hstep
              rw [← hstep]
              exact ht
            | eatFood food gen =>
              simp only [Op.apply] at hstep
              cases he : t.eatFood food gen with
              | none => simp [he] at hstep
              | some r =>
                simp only [he, Option.map_some', Option.some.injEq] at hstep
                rw [← hstep, eatFood_isAlive t food gen r he]
                exact ht
            | reset food gen => simp [Op.isReset] at hop
          exact ih t1 s1 ht1 hrest h
    intro ops s1 hops h
    exact aux ops s s1 hdead hops h

/-- C14, on the dead three-segment snake. -/
theorem dead_snake_frozen_witness :
    deadSnake.isAlive = false ∧
    deadSnake.updateSnake = some deadSnake ∧
    (∀ sym : Int, deadSnake.updateSnakeInput sym = deadSnake) ∧
    (∀ ops : List Op,
      (∀ op ∈ ops, op = Op.updateSnake ∨ ∃ sym, op = Op.updateSnakeInput sym) →
      applyOps ops deadSnake = some deadSnake) ∧
    (∀ (ops : List Op) (s1 : Snake), (∀ op ∈ ops, op.isReset = false) →
      applyOps ops deadSnake = some s1 → s1.isAlive = false) :=
  ⟨rfl, dead_snake_frozen deadSnake rfl⟩

/-- C17: every sequence of `updateSnakeInput`, `updateSnake`, `eatFood` (any food) and
`reset` from the constructed snake returns a snake that, when `isAlive` is true, has every
segment, head included, at a position with `0 ≤ x ≤ 765` and `0 ≤ y ≤ 565`, the whole
35x35 square lying on the 800x600 screen. -/
theorem alive_snake_on_screen (ops : List Op) :
    ∃ s, applyOps ops Snake.init = some s ∧
      (s.isAlive = true → ∀ sg ∈ s.segments,
        (0 ≤ sg.position.x ∧ sg.position.x ≤ 765 ∧ 0 ≤ sg.position.y ∧ sg.position.y ≤ 565) ∧
        sg.position.x + sg.size.width ≤ SCREEN_WIDTH ∧
        sg.position.y + sg.size.height ≤ SCREEN_HEIGHT) := by
  obtain ⟨s, hs, _, _, _, _, hsz, hpos⟩ := applyOps_inv ops Snake.init init_inv
  refine ⟨s, hs, ?_⟩
  intro halive sg hsg
  have hp := hpos halive sg hsg
  refine ⟨hp, ?_, ?_⟩
  · rw [hsz sg hsg]
    simp only [SCREEN_WIDTH]
    omega
  · rw [hsz sg hsg]
    simp only [SCREEN_HEIGHT]
    omega

/-- C18: every sequence of `updateSnakeInput`, `updateSnake`, `eatFood` and `reset` from the
constructed snake returns a snake whose score is its number of segments minus 1. -/
theorem score_counts_segments (ops : List Op) :
    ∃ s, applyOps ops Snake.init = some s ∧ s.points = (s.segments.length : Int) - 1 := by
  obtain ⟨s, hs, _, _, _, hpt, _⟩ := applyOps_inv ops Snake.init init_inv
  exact ⟨s, hs, by omega⟩

/-- C20: every sequence of `updateSnakeInput`, `updateSnake`, `eatFood` and `reset` from the
constructed snake returns a snake with at least one segment; on it `segments[0]` and
`segments.back()` exist, the loop start `segments.size() - 1` does not wrap, both loops of
`updateSnake` stay inside `oldPositions`, and `updateSnake`, `isColliding` and `eatFood`
all return. -/
theorem segments_nonempty (ops : List Op) :
    ∃ s, applyOps ops Snake.init = some s ∧ s.segments ≠ [] ∧
      (∃ seg0, s.segments[0]? = some seg0) ∧
      (∃ tail, s.segments.getLast? = some tail) ∧
      ((s.segments.length - 1 : Nat) : Int) = (s.segments.length : Int) - 1 ∧
      (∃ shifted, shiftLoop (s.segments.map (fun sg => sg.position))
        (s.segments.length - 1) s.segments = some shifted) ∧
      (∀ head : Position, ∃ b, collisionLoop head (s.segments.map (fun sg => sg.position))
        (s.segments.length - 1) 1 true = some b) ∧
      (∃ s1, s.updateSnake = some s1) ∧
      (∀ food : Food, ∃ b, s.isColliding food = some b) ∧
      (∀ (food : Food) (gen : Gen), ∃ r, s.eatFood food gen = some r) := by
  obtain ⟨s, hs, hinv⟩ := applyOps_inv ops Snake.init init_inv
  have hne : s.segments ≠ [] := hinv.1
  have hpos : 0 < s.segments.length := List.length_pos.mpr hne
  refine ⟨s, hs, hne, ⟨s.segments[0], List.getElem?_eq_getElem hpos⟩, ?_, by omega, ?_, ?_, ?_,
    ?_, ?_⟩
  · exact ⟨_, List.getLast?_eq_getLast _ hne⟩
  · obtain ⟨r, hr, _⟩ := shiftLoop_spec (s.segments.map (fun sg => sg.position))
      (s.segments.length - 1) s.segments (by omega) (by simp)
    exact ⟨r, hr⟩
  · intro head
    obtain ⟨b, hb, _⟩ := collisionLoop_spec head (s.segments.map (fun sg => sg.position))
      (s.segments.length - 1) 1 true (by simp; omega)
    exact ⟨b, hb⟩
  · obtain ⟨s1, h1, _⟩ := updateSnake_inv s hinv
    exact ⟨s1, h1⟩
  · intro food
    obtain ⟨b, _, hb, _⟩ := eatFood_total s food zeroGen hne
    exact ⟨b, hb⟩
  · intro food gen
    obtain ⟨r, hr, _⟩ := eatFood_inv s food gen hinv
    exact ⟨r, hr⟩

/-- C15: in a run of `N` ticks from a snake with a head, each tick being `updateSnake` on a
living snake followed by `eatFood` with any food, with any key events between the ticks,
let `S t` be the segments right after the `updateSnake` of tick `t` (the start segments for
`t = 0`); then for every `i` with `1 ≤ i ≤ N` and `i < length (S N)`, segment `i` of `S N`
lies where the head of `S (N - i)` was, also when the snake grows or turns. -/
theorem history_after_update (s : Snake) (ctx : Nat → List Int × Food × Gen) (N : Nat)
    (hne : s.segments ≠ [])
    (hal : ∀ k, k < N → ∃ r, playTicks s ctx k = some r ∧ r.2.isAlive = true) :
    ∃ rN, playTicks s ctx N = some rN ∧
      ∀ i, 1 ≤ i → i ≤ N → i < rN.1.segments.length →
        ∃ rNi seg head, playTicks s ctx (N - i) = some rNi ∧
          rN.1.segments[i]? = some seg ∧ rNi.1.segments[0]? = some head ∧
          seg.position = head.position := by
  obtain ⟨rN, hN, _⟩ := playTicks_total s ctx hne N hal
  refine ⟨rN, hN, ?_⟩
  intro i _ hi hlt
  obtain ⟨rNi, hNi, _⟩ := playTicks_total s ctx hne (N - i) (fun k hk => hal k (by omega))
  have hhist := playTicks_history s ctx hne N hal i rN rNi hi hN hNi hlt
  rw [List.getElem?_eq_getElem hlt] at hhist
  cases h0 : rNi.1.segments[0]? with
  | none => rw [h0] at hhist; simp at hhist
  | some head =>
    rw [h0] at hhist
    exact ⟨rNi, rN.1.segments[i], head, hNi, List.getElem?_eq_getElem hlt, h0,
      by simpa using hhist⟩

/-- C15, on three ticks that all eat, the snake turning up and right in between. -/
theorem history_after_update_witness :
    snakeAtCentre.segments ≠ [] ∧
    (∀ k, k < 3 → ∃ r, playTicks snakeAtCentre turningCtx k = some r ∧ r.2.isAlive = true) ∧
    ∃ rN, playTicks snakeAtCentre turningCtx 3 = some rN ∧
      ∀ i, 1 ≤ i → i ≤ 3 → i < rN.1.segments.length →
        ∃ rNi seg head, playTicks snakeAtCentre turningCtx (3 - i) = some rNi ∧
          rN.1.segments[i]? = some seg ∧ rNi.1.segments[0]? = some head ∧
          seg.position = head.position :=
  have hal : ∀ k, k < 3 →
      ∃ r, playTicks snakeAtCentre turningCtx k = some r ∧ r.2.isAlive = true := by
    intro k hk
    have hcases : k = 0 ∨ k = 1 ∨ k = 2 := by omega
    rcases hcases with h | h | h <;> subst h <;> exact ⟨_, rfl, rfl⟩
  ⟨by decide, hal, history_after_update snakeAtCentre turningCtx 3 (by decide) hal⟩

/-- C16: for a living snake of at least two segments heading in a cardinal direction `d`,
with segment 1 directly behind the head (at head minus `speed * d`), there are two direction
keys, the first perpendicular to `d`, the second asking for `-d`, that `input` processes
in order in one frame and after which the direction is `-d`; the next `updateSnake` puts
the head exactly on the position segment 1 had and sets `isAlive` to false. -/
theorem reversal_within_frame (s : Snake) (seg0 seg1 : Segment) (rest : List Segment)
    (halive : s.isAlive = true) (hd : isCardinal s.direction)
    (hsegs : s.segments = seg0 :: seg1 :: rest)
    (hbehind : seg1.position = ⟨seg0.position.x - s.speed * s.direction.x,
                                seg0.position.y - s.speed * s.direction.y⟩) :
    ∃ k1 k2 v1, keyVector k1 = some v1 ∧
      v1.x * s.direction.x + v1.y * s.direction.y = 0 ∧
      keyVector k2 = some ⟨-s.direction.x, -s.direction.y⟩ ∧
      ((s.updateSnakeInput k1).updateSnakeInput k2).direction
        = ⟨-s.direction.x, -s.direction.y⟩ ∧
      (∀ g : Game, g.snake = s →
        (input [Event.keyDown k1, Event.keyDown k2] g).snake
          = (s.updateSnakeInput k1).updateSnakeInput k2) ∧
      ∃ s3 head, ((s.updateSnakeInput k1).updateSnakeInput k2).updateSnake = some s3 ∧
        s3.segments[0]? = some head ∧ head.position = seg1.position ∧ s3.isAlive = false := by
  have hkeys : SDLK_w ≠ SDLK_q ∧ SDLK_w ≠ SDLK_SPACE ∧ SDLK_s ≠ SDLK_q ∧
      SDLK_s ≠ SDLK_SPACE ∧ SDLK_a ≠ SDLK_q ∧ SDLK_a ≠ SDLK_SPACE ∧ SDLK_d ≠ SDLK_q ∧
      SDLK_d ≠ SDLK_SPACE := by decide
  obtain ⟨w1, w2, s1, s2, a1, a2, d1, d2⟩ := hkeys
  unfold isCardinal at hd
  rcases hd with h | h | h | h
  · have hdir : ((s.updateSnakeInput SDLK_a).updateSnakeInput SDLK_s).direction
        = ⟨-s.direction.x, -s.direction.y⟩ := by
      simp [Snake.updateSnakeInput, halive, h, SDLK_w, SDLK_s, SDLK_a, SDLK_d]
    exact ⟨SDLK_a, SDLK_s, ⟨-1, 0⟩, by decide, by rw [h]; decide, by rw [h]; decide, hdir,
      reversal_kills s seg0 seg1 rest SDLK_a SDLK_s halive hsegs hbehind a1 a2 s1 s2 hdir⟩
  · have hdir : ((s.updateSnakeInput SDLK_a).updateSnakeInput SDLK_w).direction
        = ⟨-s.direction.x, -s.direction.y⟩ := by
      simp [Snake.updateSnakeInput, halive, h, SDLK_w, SDLK_s, SDLK_a, SDLK_d]
    exact ⟨SDLK_a, SDLK_w, ⟨-1, 0⟩, by decide, by rw [h]; decide, by rw [h]; decide, hdir,
      reversal_kills s seg0 seg1 rest SDLK_a SDLK_w halive hsegs hbehind a1 a2 w1 w2 hdir⟩
  · have hdir : ((s.updateSnakeInput SDLK_w).updateSnakeInput SDLK_d).direction
        = ⟨-s.direction.x, -s.direction.y⟩ := by
      simp [Snake.updateSnakeInput, halive, h, SDLK_w, SDLK_s, SDLK_a, SDLK_d]
    exact ⟨SDLK_w, SDLK_d, ⟨0, -1⟩, by decide, by rw [h]; decide, by rw [h]; decide, hdir,
      reversal_kills s seg0 seg1 rest SDLK_w SDLK_d halive hsegs hbehind w1 w2 d1 d2 hdir⟩
  · have hdir : ((s.updateSnakeInput SDLK_w).updateSnakeInput SDLK_a).direction
        = ⟨-s.direction.x, -s.direction.y⟩ := by
      simp [Snake.updateSnakeInput, halive, h, SDLK_w, SDLK_s, SDLK_a, SDLK_d]
    exact ⟨SDLK_w, SDLK_a, ⟨0, -1⟩, by decide, by rw [h]; decide, by rw [h]; decide, hdir,
      reversal_kills s seg0 seg1 rest SDLK_w SDLK_a halive hsegs hbehind w1 w2 a1 a2 hdir⟩

/-- C16, on a two-segment snake heading right from `(400, 300)` with its body at
`(396, 300)`. -/
theorem reversal_within_frame_witness :
    snakeOfTwo.isAlive = true ∧ isCardinal snakeOfTwo.direction ∧
    snakeOfTwo.segments = [⟨⟨400, 300⟩, ⟨35, 35⟩⟩, ⟨⟨396, 300⟩, ⟨35, 35⟩⟩] ∧
    ∃ k1 k2 v1, keyVector k1 = some v1 ∧
      v1.x * snakeOfTwo.direction.x + v1.y * snakeOfTwo.direction.y = 0 ∧
      keyVector k2 = some ⟨-snakeOfTwo.direction.x, -snakeOfTwo.direction.y⟩ ∧
      ((snakeOfTwo.updateSnakeInput k1).updateSnakeInput k2).direction
        = ⟨-snakeOfTwo.direction.x, -snakeOfTwo.direction.y⟩ ∧
      (∀ g : Game, g.snake = snakeOfTwo →
        (input [Event.keyDown k1, Event.keyDown k2] g).snake
          = (snakeOfTwo.updateSnakeInput k1).updateSnakeInput k2) ∧
      ∃ s3 head, ((snakeOfTwo.updateSnakeInput k1).updateSnakeInput k2).updateSnake = some s3 ∧
        s3.segments[0]? = some head ∧ head.position = (⟨⟨396, 300⟩, ⟨35, 35⟩⟩ : Segment).position ∧ s3.isAlive = false :=
  ⟨rfl, by decide, rfl,
    reversal_within_frame snakeOfTwo ⟨⟨400, 300⟩, ⟨35, 35⟩⟩ ⟨⟨396, 300⟩, ⟨35, 35⟩⟩ [] rfl
      (by decide) rfl (by decide)⟩

/-- C19: `eatFood` does not look at `isAlive`: on a dead snake whose head box meets the food
it still appends a segment and adds a point.  So the `PLAY` frame of a one-segment snake
moving from `x = 764` to `x = 768` with the food at `(740, 300)` ends on `GAME_OVER` with
the score one higher, and a game left alone on a row of foods shows score 10 on
`GAME_OVER` after score 9 one frame earlier. -/
theorem eatFood_ignores_liveness (s : Snake) (food : Food) (gen : Gen)
    (hdead : s.isAlive = false) (hhit : s.isColliding food = some true) :
    (∃ r tail, s.eatFood food gen = some r ∧ s.segments.getLast? = some tail ∧
      r.1.segments = s.segments ++ [⟨tail.position, ⟨35, 35⟩⟩] ∧
      r.1.points = s.points + 1 ∧ r.1.isAlive = false) ∧
    (gameAt764.snake.isAlive = true ∧ gameAt764.snake.points = 0 ∧
     (frame [] gameAt764).map (fun g => (g.currentState, g.snake.isAlive, g.snake.points,
        g.snake.segments.map (fun sg => sg.position)))
      = some (ScreenState.GAME_OVER, false, 1, [⟨768, 300⟩, ⟨768, 300⟩])) ∧
    ((mainLoop (idleFrames.take 92) (Game.init rowGen)).map
        (fun g => (g.currentState, g.snake.isAlive, g.snake.points))
      = some (ScreenState.PLAY, true, 9) ∧
     (mainLoop idleFrames (Game.init rowGen)).map
        (fun g => (g.currentState, g.snake.isAlive, g.snake.points))
      = some (ScreenState.GAME_OVER, false, 10)) := by
  refine ⟨?_, ⟨rfl, rfl, by decide⟩, by decide, by decide⟩
  have hne : s.segments ≠ [] := by
    intro hnil
    simp [Snake.isColliding, hnil] at hhit
  obtain ⟨b, tail, hb, htail, he⟩ := eatFood_total s food gen hne
  rw [hhit] at hb
  have hbt : b = true := (Option.some.inj hb).symm
  subst hbt
  exact ⟨_, tail, he, htail, rfl, rfl, hdead⟩

/-- C19, on the dead snake whose head at `(768, 300)` meets the food at `(740, 300)`. -/
theorem eatFood_ignores_liveness_witness :
    deadSnake.isAlive = false ∧ deadSnake.isColliding foodAt740 = some true ∧
    (∃ r tail, deadSnake.eatFood foodAt740 zeroGen = some r ∧ deadSnake.segments.getLast? = some tail ∧
      r.1.segments = deadSnake.segments ++ [⟨tail.position, ⟨35, 35⟩⟩] ∧
      r.1.points = deadSnake.points + 1 ∧ r.1.isAlive = false) ∧
    (gameAt764.snake.isAlive = true ∧ gameAt764.snake.points = 0 ∧
     (frame [] gameAt764).map (fun g => (g.currentState, g.snake.isAlive, g.snake.points,
        g.snake.segments.map (fun sg => sg.position)))
      = some (ScreenState.GAME_OVER, false, 1, [⟨768, 300⟩, ⟨768, 300⟩])) ∧
    ((mainLoop (idleFrames.take 92) (Game.init rowGen)).map
        (fun g => (g.currentState, g.snake.isAlive, g.snake.points))
      = some (ScreenState.PLAY, true, 9) ∧
     (mainLoop idleFrames (Game.init rowGen)).map
        (fun g => (g.currentState, g.snake.isAlive, g.snake.points))
      = some (ScreenState.GAME_OVER, false, 10)) :=
  ⟨rfl, by decide, eatFood_ignores_liveness deadSnake foodAt740 zeroGen rfl (by decide)⟩

end SnakeCPP
